import Mathlib

/-
Verification of the Event Filtering & Consequence Simulation Engine
(`consequences.py`, `im_fields.py`, `exposure.py`) against its
natural-language specification.

The Python code is shallowly embedded:
* CPython's `random.Random(seed).shuffle` (Mersenne Twister MT19937 with
  `init_by_array` seeding, tempered 32-bit output, `_randbelow` rejection
  sampling and Fisher-Yates shuffling) is embedded bit-exactly over `Nat`
  with explicit `% 2^32` arithmetic.  The 624-word generator state is
  packed into a single natural number, 32-bit limb `i` holding word `i`
  (`wget`/`wset`), so that kernel evaluation stays shallow.
* Python exceptions (KeyError, IndexError, AssertionError, the
  `raise Warning` in `filter_events_by_imvalue`, ...) become `Except PyErr`.
* numpy boolean-mask selection of rows, where the mask is computed
  pointwise from each row, becomes `List.filter`; `list.index` becomes
  a structural first-occurrence search; `sorted` an insertion sort;
  Python dicts become association lists with first-match lookup and
  replace-or-append update.
* `geopy.distance.distance(...).km` is an external library and is kept
  abstract: the embedded filter and exposure functions take the distance
  function as an explicit argument.

`strict x y` is a semantically transparent strictness hint (`= y`, proved
below) that forces the numeral `x` during kernel evaluation; it is used
inside the generator loops only.
-/

def m32 : Nat := 4294967296

/-- Strictness hint: force the numeral `x`, then return `y`.  Semantically
the identity on `y` (`strict_eq`). -/
def strict (x : Nat) (y : α) : α := if x % 1 = 0 then y else y

theorem strict_eq (x : Nat) (y : α) : strict x y = y := by
  unfold strict; split <;> rfl

deriving instance DecidableEq for Except

namespace PyRand

/-- Word `i` of a packed MT19937 state (32-bit limbs, little-endian). -/
def wget (a i : Nat) : Nat := (a >>> (32 * i)) % m32

/-- Replace word `i` of a packed MT19937 state. -/
def wset (a i v : Nat) : Nat := a - ((wget a i) <<< (32 * i)) + ((v % m32) <<< (32 * i))

/-- Tail of `init_genrand`: `mt[i] = (1812433253 * (mt[i-1] ^ (mt[i-1] >> 30)) + i) mod 2^32`. -/
def initGenrandAux : Nat → Nat → Nat → Nat → Nat
  | 0, _, _, acc => acc
  | fuel+1, i, prev, acc =>
      let v := (1812433253 * (prev ^^^ (prev >>> 30)) + i) % m32
      strict acc (initGenrandAux fuel (i+1) v (acc + (v <<< (32 * i))))

/-- `init_genrand(s)` from CPython's `_randommodule.c`. -/
def initGenrand (s : Nat) : Nat :=
  let s0 := s % m32
  initGenrandAux 623 1 s0 s0

/-- One iteration of the first `init_by_array` mixing loop. -/
def ibaStep1 (key : List Nat) (mt i j : Nat) : Nat × Nat × Nat :=
  let prev := wget mt (i-1)
  let a := ((prev ^^^ (prev >>> 30)) * 1664525) % m32
  let v := (((wget mt i) ^^^ a) + key.getD j 0 + j) % m32
  let mt := wset mt i v
  let i := i + 1
  let mt := if i ≥ 624 then wset mt 0 (wget mt 623) else mt
  let i := if i ≥ 624 then 1 else i
  let j := if j + 1 ≥ key.length then 0 else j + 1
  (mt, i, j)

def ibaLoop1 (key : List Nat) : Nat → Nat → Nat → Nat → Nat × Nat
  | 0, mt, i, _ => (mt, i)
  | k+1, mt, i, j =>
      match ibaStep1 key mt i j with
      | (mt', i', j') => strict mt' (ibaLoop1 key k mt' i' j')

/-- One iteration of the second `init_by_array` mixing loop. -/
def ibaStep2 (mt i : Nat) : Nat × Nat :=
  let prev := wget mt (i-1)
  let a := ((prev ^^^ (prev >>> 30)) * 1566083941) % m32
  let v := (((wget mt i) ^^^ a) + (m32 - i % m32)) % m32
  let mt := wset mt i v
  let i := i + 1
  let mt := if i ≥ 624 then wset mt 0 (wget mt 623) else mt
  let i := if i ≥ 624 then 1 else i
  (mt, i)

def ibaLoop2 : Nat → Nat → Nat → Nat
  | 0, mt, _ => mt
  | k+1, mt, i =>
      match ibaStep2 mt i with
      | (mt', i') => strict mt' (ibaLoop2 k mt' i')

/-- `init_by_array(key)` from CPython's `_randommodule.c`. -/
def initByArray (key : List Nat) : Nat :=
  let mt := initGenrand 19650218
  let k := max 624 key.length
  let r := ibaLoop1 key k mt 1 0
  let mt := ibaLoop2 623 r.1 r.2
  wset mt 0 2147483648

/-- One step of the MT19937 twist; `0x9908b0df` is the matrix constant. -/
def twistStep (mt kk : Nat) : Nat :=
  let y := ((wget mt kk) &&& 2147483648) ||| ((wget mt ((kk+1) % 624)) &&& 2147483647)
  let v := (wget mt (if kk < 227 then kk + 397 else kk - 227)) ^^^ (y >>> 1) ^^^
           (if y % 2 = 1 then 2567483615 else 0)
  wset mt kk v

def twistLoop : Nat → Nat → Nat → Nat
  | 0, _, mt => mt
  | f+1, kk, mt => strict mt (twistLoop f (kk+1) (twistStep mt kk))

def twist (mt : Nat) : Nat := twistLoop 624 0 mt

/-- `genrand_uint32`: twist when exhausted, then temper the next word.
The state is `(packed mt array, mti)`. -/
def genrand (s : Nat × Nat) : Nat × Nat × Nat :=
  let st := if s.2 ≥ 624 then (twist s.1, 0) else s
  let y := wget st.1 st.2
  let y := y ^^^ (y >>> 11)
  let y := y ^^^ ((y <<< 7) &&& 2636928640)
  let y := y ^^^ ((y <<< 15) &&& 4022730752)
  let y := y ^^^ (y >>> 18)
  (y, st.1, st.2 + 1)

/-- Key derivation for an integer seed: the absolute value split into
32-bit words, little-endian (`random_seed` in `_randommodule.c`). -/
def seedKeyAux : Nat → Nat → List Nat
  | 0, _ => []
  | f+1, a => if a = 0 then [] else (a % m32) :: seedKeyAux f (a / m32)

def seedKey (a : Nat) : List Nat := if a = 0 then [0] else seedKeyAux a a

/-- State of `random.Random(a)` right after construction (`mti = 624`). -/
def pySeed (a : Nat) : Nat × Nat := (initByArray (seedKey a), 624)

/-- `getrandbits(k)` for `k ≤ 32`: top `k` bits of one tempered word. -/
def getrandbits (k : Nat) (s : Nat × Nat) : Nat × Nat × Nat :=
  let r := genrand s
  (r.1 >>> (32 - k), r.2)

def bitLengthAux : Nat → Nat → Nat
  | 0, _ => 0
  | f+1, n => if n = 0 then 0 else bitLengthAux f (n / 2) + 1

/-- `int.bit_length` (for the word-sized values `_randbelow` needs). -/
def bitLength (n : Nat) : Nat := bitLengthAux 64 n

/-- Rejection loop of `_randbelow_with_getrandbits`; the fuel bounds the
number of retries (CPython loops unboundedly; 64 retries are never
exhausted on the traces this development evaluates, and on exhaustion the
embedded loop returns 0, which keeps the result `< n` for `n > 0`). -/
def randbelowLoop : Nat → Nat → Nat → Nat × Nat → Nat × Nat × Nat
  | 0, _, _, s => (0, s)
  | fuel+1, n, k, s =>
      let r := getrandbits k s
      if r.1 < n then r else randbelowLoop fuel n k r.2

def randbelow (n : Nat) (s : Nat × Nat) : Nat × Nat × Nat :=
  if n = 0 then (0, s) else randbelowLoop 64 n (bitLength n) s

/-- `x[i], x[j] = x[j], x[i]` on a list (identity when out of bounds;
the shuffle only swaps in-bounds positions). -/
def listSwap (x : List α) (i j : Nat) : List α :=
  match x[i]?, x[j]? with
  | some a, some b => (x.set i b).set j a
  | _, _ => x

/-- `random.shuffle` loop: `for i in reversed(range(1, len(x)))`,
`j = _randbelow(i+1)`, swap `x[i]` and `x[j]`.  The first argument is the
current index `i`. -/
def pyShuffleAux : Nat → List α → Nat × Nat → List α × Nat × Nat
  | 0, x, s => (x, s)
  | i+1, x, s =>
      match randbelow (i+2) s with
      | (j, s') => pyShuffleAux i (listSwap x (i+1) j) s'

def pyShuffle (x : List α) (s : Nat × Nat) : List α × Nat × Nat :=
  pyShuffleAux (x.length - 1) x s

/-- `random.Random(seed).shuffle(x)`: a fresh generator seeded with
`seed`, applied in place to `x`; the embedded form returns the shuffled
list. -/
def shuffleWithSeed (seed : Nat) (x : List α) : List α :=
  (pyShuffle x (pySeed seed)).1

theorem randbelowLoop_lt (fuel n k : Nat) (s : Nat × Nat) (hn : 0 < n) :
    (randbelowLoop fuel n k s).1 < n := by
  induction fuel generalizing s with
  | zero => simpa using hn
  | succ f ih =>
      simp only [randbelowLoop]
      split
      · assumption
      · exact ih _

theorem randbelow_lt (n : Nat) (s : Nat × Nat) (hn : 0 < n) :
    (randbelow n s).1 < n := by
  unfold randbelow
  rw [if_neg (Nat.pos_iff_ne_zero.mp hn)]
  exact randbelowLoop_lt _ _ _ _ hn

theorem cons_set_perm {α : Type _} (a : α) :
    ∀ (t : List α) (m : Nat) (b : α), t[m]? = some b →
      List.Perm (b :: t.set m a) (a :: t)
  | [], m, b, h => by simp at h
  | c :: t', 0, b, h => by
      simp only [List.getElem?_cons_zero, Option.some.injEq] at h
      subst h
      simpa [List.set] using List.Perm.swap a c t'
  | c :: t', m+1, b, h => by
      simp only [List.getElem?_cons_succ] at h
      have ih := cons_set_perm a t' m b h
      calc
        List.Perm (b :: (c :: t').set (m+1) a) (c :: b :: t'.set m a) := by
          simpa [List.set] using List.Perm.swap c b (t'.set m a)
        List.Perm _ (c :: a :: t') := List.Perm.cons c ih
        List.Perm _ (a :: c :: t') := List.Perm.swap a c t'

theorem listSwap_perm {α : Type _} :
    ∀ (x : List α) (i j : Nat), List.Perm (listSwap x i j) x := by
  intro x
  induction x with
  | nil => intro i j; unfold listSwap; simp
  | cons c t ih =>
      intro i j
      unfold listSwap
      match i, j with
      | 0, 0 =>
          simp [List.set]
      | 0, m+1 =>
          simp only [List.getElem?_cons_zero, List.getElem?_cons_succ]
          cases h : t[m]? with
          | none => simp
          | some b =>
              simp only [List.set]
              exact cons_set_perm c t m b h
      | k+1, 0 =>
          simp only [List.getElem?_cons_zero, List.getElem?_cons_succ]
          cases h : t[k]? with
          | none => simp
          | some a =>
              simp only [List.set]
              exact cons_set_perm c t k a h
      | k+1, m+1 =>
          simp only [List.getElem?_cons_succ]
          cases h1 : t[k]? with
          | none => simp
          | some a =>
              cases h2 : t[m]? with
              | none => simp
              | some b =>
                  simp only [List.set]
                  have := ih k m
                  unfold listSwap at this
                  rw [h1, h2] at this
                  exact List.Perm.cons c this

theorem pyShuffleAux_perm {α : Type _} :
    ∀ (i : Nat) (x : List α) (s : Nat × Nat),
      List.Perm (pyShuffleAux i x s).1 x
  | 0, x, s => by simp [pyShuffleAux]
  | i+1, x, s => by
      unfold pyShuffleAux
      exact List.Perm.trans
        (pyShuffleAux_perm i (listSwap x (i+1) (randbelow (i+2) s).1) (randbelow (i+2) s).2)
        (listSwap_perm x (i+1) (randbelow (i+2) s).1)

theorem pyShuffle_perm {α : Type _} (x : List α) (s : Nat × Nat) :
    List.Perm (pyShuffle x s).1 x :=
  pyShuffleAux_perm _ x s

theorem shuffleWithSeed_perm {α : Type _} (seed : Nat) (x : List α) :
    List.Perm (shuffleWithSeed seed x) x :=
  pyShuffle_perm x (pySeed seed)

end PyRand

namespace Eng

/-- Embedded Python exception kinds. -/
inductive PyErr where
  | keyError | indexError | typeError | valueError | assertionError | nameError
  | warning | exception
deriving DecidableEq

/-- Scalar JSON payloads: numbers and strings.  Realization payloads that
the engine only moves around (e.g. recovery realization records) are
modelled as scalars as well, since the engine never inspects them. -/
inductive Scalar where
  | num : ℚ → Scalar
  | str : String → Scalar
deriving DecidableEq

/-- A field value inside a component record of a consequence file:
a scalar, a realization-indexed array, or a string-keyed map of arrays
(the Tier II `recovery` dictionary keyed `rlz_1`, `rlz_2`, ...). -/
inductive FieldVal where
  | scalar : Scalar → FieldVal
  | list : List Scalar → FieldVal
  | dict : List (String × List Scalar) → FieldVal
deriving DecidableEq

/-- A Python dict of fields (association list; keys unique in data). -/
abbrev PyDict := List (String × FieldVal)

/-- A value inside one `iml_consequences` record: a plain field
(`im_level`), the Tier I component list (`consequences`), or a single
component dict (`global`). -/
inductive RecVal where
  | field : FieldVal → RecVal
  | comps : List PyDict → RecVal
  | comp : PyDict → RecVal
deriving DecidableEq

/-- One record of `iml_consequences` (a Python dict). -/
abbrev ConsRecord := List (String × RecVal)

/-- First-match lookup in a Python dict. -/
def dlookup {β : Type _} : List (String × β) → String → Option β
  | [], _ => none
  | (k, v) :: t, key => if k = key then some v else dlookup t key

/-- `key in d.keys()`. -/
def hasKey {β : Type _} (d : List (String × β)) (k : String) : Bool :=
  (dlookup d k).isSome

/-- `d[key] = v` / `d.update({key: v})`: replace in place if the key
exists, else append (Python dict insertion order). -/
def dupdate {β : Type _} : List (String × β) → String → β → List (String × β)
  | [], key, v => [(key, v)]
  | (k, w) :: t, key, v => if k = key then (key, v) :: t else (k, w) :: dupdate t key v

/-- Look up a field expected to be a realization array. -/
def getList (d : PyDict) (k : String) : Except PyErr (List Scalar) :=
  match dlookup d k with
  | some (FieldVal.list xs) => .ok xs
  | some _ => .error .typeError
  | none => .error .keyError

/-- `[xs[i] for i in rnd]` with Python IndexError semantics. -/
def reindexArr (rnd : List Nat) (xs : List Scalar) : Except PyErr (List Scalar) :=
  match rnd with
  | [] => .ok []
  | i :: t =>
      match xs[i]? with
      | some v => (reindexArr t xs).map (fun l => v :: l)
      | none => .error .indexError

/-- Python `abs` on numbers. -/
def pyAbs (q : ℚ) : ℚ := if q < 0 then -q else q

def pyMinRangeAux (f : Nat → ℚ) : Nat → Nat → Nat → ℚ → Nat
  | 0, _, best, _ => best
  | fuel+1, i, best, bestv =>
      if f i < bestv then pyMinRangeAux f fuel (i+1) i (f i)
      else pyMinRangeAux f fuel (i+1) best bestv

/-- `min(range(n), key=f)`: index of the first minimum of `f` on
`range n`; ValueError on an empty range. -/
def pyMinRange (f : Nat → ℚ) (n : Nat) : Except PyErr Nat :=
  match n with
  | 0 => .error .valueError
  | k+1 => .ok (pyMinRangeAux f k 1 0 (f 0))

/-- `if guardKey in comp.keys(): out[outKey] = [comp[readKey][i] for i in rnd]`.
For `cost` and `damage_state` the guard and read keys coincide; for the
Tier I `recovery` block the code tests `'recovery' in asset_cons.keys()`
but reads `asset_cons['recovery_realizations']`. -/
def addReindexed (rnd : List Nat) (comp : PyDict) (guardKey readKey outKey : String)
    (inner : PyDict) : Except PyErr PyDict :=
  if hasKey comp guardKey then do
    let xs ← getList comp readKey
    let rv ← reindexArr rnd xs
    pure (dupdate inner outKey (FieldVal.list rv))
  else pure inner

/-- Processing of one Tier I component (`consequences.py` lines 129-152):
non-`global` components get their `cost`/`damage_state` arrays reindexed;
the `global` component additionally gets `recovery` built from
`recovery_realizations` (guarded by the presence of the key `recovery`). -/
def tierIComp (rnd : List Nat) (comp : PyDict) : Except PyErr (String × PyDict) := do
  match dlookup comp "component" with
  | none => .error .keyError
  | some cv =>
    if cv = FieldVal.scalar (Scalar.str "global") then do
      let inner ← addReindexed rnd comp "recovery" "recovery_realizations" "recovery" []
      let inner ← addReindexed rnd comp "cost" "cost" "cost" inner
      let inner ← addReindexed rnd comp "damage_state" "damage_state" "damage_state" inner
      pure ("global", inner)
    else
      match cv with
      | FieldVal.scalar (Scalar.str name) => do
          let inner ← addReindexed rnd comp "cost" "cost" "cost" []
          let inner ← addReindexed rnd comp "damage_state" "damage_state" "damage_state" inner
          pure (name, inner)
      | _ => .error .typeError

/-- Tier I branch (`len(asset_cons.keys()) > 1`): loop over
`rec['consequences']`. -/
def tierIProcess (rnd : List Nat) (rec : ConsRecord) : Except PyErr (List (String × PyDict)) :=
  match dlookup rec "consequences" with
  | some (RecVal.comps comps) =>
      comps.foldlM (fun acc comp => do
        let r ← tierIComp rnd comp
        pure (dupdate acc r.1 r.2)) []
  | some _ => .error .typeError
  | none => .error .keyError

/-- Tier II branch: reindex `cost`, `damage_state`, `recovery` under
`rec['global']` directly (`consequences.py` lines 154-168).  The
`recovery` dictionary is rebuilt as
`{'rlz_'+str(i+1): recdict['rlz_'+str(k+1)] for i, k in enumerate(rnd)}`. -/
def tierIIProcess (rnd : List Nat) (rec : ConsRecord) : Except PyErr (List (String × PyDict)) := do
  match dlookup rec "global" with
  | some (RecVal.comp g) => do
      let inner ← addReindexed rnd g "cost" "cost" "cost" []
      let inner ← addReindexed rnd g "damage_state" "damage_state" "damage_state" inner
      let inner ← if hasKey g "recovery" then do
          match dlookup g "recovery" with
          | some (FieldVal.dict rd) => do
              let pairs ← rnd.enum.mapM (fun p =>
                match dlookup rd ("rlz_" ++ toString (p.2 + 1)) with
                | some v => Except.ok ("rlz_" ++ toString (p.1 + 1), v)
                | none => Except.error PyErr.keyError)
              pure (dupdate inner "recovery" (FieldVal.dict pairs))
          | some _ => .error .typeError
          | none => .error .keyError
        else pure inner
      pure [("global", inner)]
  | some _ => .error .typeError
  | none => .error .keyError

/-- Schema dispatch of `get_consequences_by_event` (line 127):
`if len(asset_cons.keys()) > 1` → Tier I, else → Tier II. -/
def processRecord (rec : ConsRecord) (rnd : List Nat) : Except PyErr (List (String × PyDict)) :=
  if 1 < rec.length then tierIProcess rnd rec else tierIIProcess rnd rec

/-- `get_cons_imlevels`: `im_level` of every record, as a number. -/
def get_cons_imlevels (conss : List ConsRecord) : Except PyErr (List ℚ) :=
  conss.mapM (fun c => match dlookup c "im_level" with
    | some (RecVal.field (FieldVal.scalar (Scalar.num q))) => Except.ok q
    | some _ => Except.error PyErr.typeError
    | none => Except.error PyErr.keyError)

/-- Result structure: `event_id → asset_name → component → field → value`. -/
abbrev Results := List (String × List (String × List (String × PyDict)))

abbrev DsDescr := List (String × PyDict)

/-- Loop body of `get_consequences_by_event` over the `events` list
(with its running `ev_idx`). -/
def gcbeLoop (asset_name : String) (levels : List ℚ) (conss : List ConsRecord)
    (rnd : List Nat) (im_values : List ℚ) :
    List Nat → Nat → Results → Except PyErr Results
  | [], _, results => .ok results
  | ev :: rest, ev_idx, results => do
      match im_values[ev_idx]? with
      | none => .error .indexError
      | some im_value => do
          let idx ← pyMinRange (fun i => pyAbs (levels.getD i 0 - im_value)) levels.length
          match conss[idx]? with
          | none => .error .indexError
          | some rec => do
              let rrng ← processRecord rec rnd
              let evk := toString ev
              let results :=
                match dlookup results evk with
                | some d => dupdate results evk (dupdate d asset_name rrng)
                | none => dupdate results evk [(asset_name, rrng)]
              gcbeLoop asset_name levels conss rnd im_values rest (ev_idx + 1) results

/-- `get_consequences_by_event` (`consequences.py` lines 108-175). -/
def get_consequences_by_event (events : List Nat) (im_values : List ℚ) (asset_name : String)
    (asset_im_levels : List ℚ) (asset_consequences : List ConsRecord) (rndnums : List Nat)
    (results : Results) : Except PyErr Results :=
  gcbeLoop asset_name asset_im_levels asset_consequences rndnums im_values events 0 results

end Eng

namespace Eng

def charLower (c : Char) : Char :=
  if 65 ≤ c.toNat ∧ c.toNat ≤ 90 then Char.ofNat (c.toNat + 32) else c

/-- `str.lower()` (ASCII; the IM-type names compared are ASCII). -/
def strLower (s : String) : String := String.mk (s.data.map charLower)

/-- Truncation to 25 characters, as numpy's `U25` dtype does when the
component names are stored in `find_conss_idx`. -/
def strTake25 (s : String) : String := String.mk (s.data.take 25)

/-- `find_conss_idx(comps_data, tag, check_dupl=True)`: the
`(name, index)` table over the component descriptions, raising on a
duplicate name; names are stored truncated to 25 characters. -/
def find_conss_idx_loop (tag : String) :
    List PyDict → List String → Nat → Except PyErr (List (String × Nat))
  | [], _, _ => .ok []
  | comp :: rest, seen, i =>
      match dlookup comp tag with
      | some (FieldVal.scalar (Scalar.str name)) =>
          if name ∈ seen then .error .exception
          else do
            let tl ← find_conss_idx_loop tag rest (name :: seen) (i+1)
            pure ((strTake25 name, i) :: tl)
      | some _ => .error .typeError
      | none => .error .keyError

def find_conss_idx (comps_data : List PyDict) (tag : String) :
    Except PyErr (List (String × Nat)) :=
  find_conss_idx_loop tag comps_data [] 0

/-- `find_cons_idx`: index of the first entry whose stored (truncated)
name equals `component`; IndexError if none. -/
def find_cons_idx (comps_data : List PyDict) (tag component : String) :
    Except PyErr Nat := do
  let idx ← find_conss_idx comps_data tag
  match (idx.filter (fun p => p.1 = component)).head? with
  | some p => .ok p.2
  | none => .error .indexError

/-- One row of the ground-motion-field dataset `gmf_data/data`:
event id, site id and the (possibly multi-stripe) intensity values. -/
structure GmfRow where
  eid : Nat
  sid : ℚ
  gmv : List ℚ
deriving DecidableEq

/-- The per-taxonomy entry of `cons_for_hazard`. -/
structure TaxCons where
  im_type : String
  iml_consequences : List ConsRecord
  component_damage_state_description : List PyDict
deriving DecidableEq

/-- The slice of an exposure asset the engine reads:
`asset['location']['hazard_sid']`. -/
structure AssetRec where
  hazard_sid : ℚ
deriving DecidableEq

/-- The body of the inner asset loop of
`get_consequences_by_event_all_assets` after the shuffle: extract the
first ground-motion row at the asset's site, compute the IM levels, call
`get_consequences_by_event`, and record the `global` damage-state
description. -/
def processAsset (event_id : Nat) (rows : List GmfRow) (tc : TaxCons) (nums : List Nat)
    (assetName : String) (asset : AssetRec) (st : Results × DsDescr) :
    Except PyErr (Results × DsDescr) := do
  match ((rows.filter (fun r => r.sid = asset.hazard_sid)).map GmfRow.gmv)[0]? with
  | none => .error .indexError
  | some imvs => do
      let levels ← get_cons_imlevels tc.iml_consequences
      let results ← get_consequences_by_event [event_id] imvs assetName levels
        tc.iml_consequences nums st.1
      let gidx ← find_cons_idx tc.component_damage_state_description "component" "global"
      match tc.component_damage_state_description[gidx]? with
      | none => .error .indexError
      | some row => .ok (results, dupdate st.2 assetName row)

/-- The asset loop of the driver, threading the shared shuffled list
`nums` and the running seed counter `rnd_seed` (in-place
`random.Random(rnd_seed).shuffle(nums)` per asset). -/
def assetLoop (event_id : Nat) (rows : List GmfRow) (tc : TaxCons) :
    List (String × AssetRec) → Nat → List Nat → Results × DsDescr →
    Except PyErr (Nat × List Nat × (Results × DsDescr))
  | [], seed, nums, st => .ok (seed, nums, st)
  | (an, a) :: rest, seed, nums, st => do
      let seed := seed + 1
      let nums := PyRand.shuffleWithSeed seed nums
      let st ← processAsset event_id rows tc nums an a st
      assetLoop event_id rows tc rest seed nums st

/-- The taxonomy loop of the driver: IM-type assertion, then the asset
loop over `exp_assets[tax_key]`. -/
def taxLoop (event_id : Nat) (imType : String) (rows : List GmfRow)
    (exp_assets : List (String × List (String × AssetRec))) :
    List (String × TaxCons) → Nat → List Nat → Results × DsDescr →
    Except PyErr (Nat × List Nat × (Results × DsDescr))
  | [], seed, nums, st => .ok (seed, nums, st)
  | (taxKey, tc) :: rest, seed, nums, st => do
      if strLower tc.im_type = strLower imType then
        match dlookup exp_assets taxKey with
        | none => .error .keyError
        | some assets => do
            let r ← assetLoop event_id rows tc assets seed nums st
            taxLoop event_id imType rows exp_assets rest r.1 r.2.1 r.2.2
      else .error .assertionError

/-- `get_consequences_by_event_all_assets` (`consequences.py` lines
211-254).  `imType` is `gmf_data/imts` of the IM-field file, `gmf` its
data rows, `Nrealizations` comes from the consequence metadata.  The
rows with `eid == event_id` are selected first; `nums` starts as
`list(range(Nrealizations))` and is shuffled in place with seed
`rnd_seed` (starting at 1) before each asset. -/
def get_consequences_by_event_all_assets (event_id : Nat) (imType : String)
    (gmf : List GmfRow) (cons_for_hazard : List (String × TaxCons)) (Nrealizations : Nat)
    (exp_assets : List (String × List (String × AssetRec))) :
    Except PyErr (Results × DsDescr) := do
  let rows := gmf.filter (fun r => r.eid = event_id)
  let r ← taxLoop event_id imType rows exp_assets cons_for_hazard 0
    (List.range Nrealizations) ([], [])
  pure r.2.2

/-- Closed form of the shared `nums` list after `k` assets have been
processed: the identity is shuffled in place with seeds 1, 2, ..., `k`
successively; the permutation applied to the asset at 0-based global
position `k` is `enginePerm N (k+1)`. -/
def enginePerm (N : Nat) : Nat → List Nat
  | 0 => List.range N
  | k+1 => PyRand.shuffleWithSeed (k+1) (enginePerm N k)

/-- Specification-side asset loop: identical to `assetLoop` except that
the permutation for the asset at global position `k` is written in the
closed form `enginePerm N (k+1)` instead of being threaded in place. -/
def specAssetLoop (N : Nat) (event_id : Nat) (rows : List GmfRow) (tc : TaxCons) :
    List (String × AssetRec) → Nat → Results × DsDescr →
    Except PyErr (Nat × (Results × DsDescr))
  | [], k, st => .ok (k, st)
  | (an, a) :: rest, k, st => do
      let st ← processAsset event_id rows tc (enginePerm N (k+1)) an a st
      specAssetLoop N event_id rows tc rest (k+1) st

def specTaxLoop (N : Nat) (event_id : Nat) (imType : String) (rows : List GmfRow)
    (exp_assets : List (String × List (String × AssetRec))) :
    List (String × TaxCons) → Nat → Results × DsDescr →
    Except PyErr (Nat × (Results × DsDescr))
  | [], k, st => .ok (k, st)
  | (taxKey, tc) :: rest, k, st => do
      if strLower tc.im_type = strLower imType then
        match dlookup exp_assets taxKey with
        | none => .error .keyError
        | some assets => do
            let r ← specAssetLoop N event_id rows tc assets k st
            specTaxLoop N event_id imType rows exp_assets rest r.1 r.2
      else .error .assertionError

/-- Specification-side driver: the engine with the per-asset
permutations given in closed form by `enginePerm`. -/
def specAllAssets (event_id : Nat) (imType : String) (gmf : List GmfRow)
    (cons_for_hazard : List (String × TaxCons)) (Nrealizations : Nat)
    (exp_assets : List (String × List (String × AssetRec))) :
    Except PyErr (Results × DsDescr) := do
  let rows := gmf.filter (fun r => r.eid = event_id)
  let r ← specTaxLoop Nrealizations event_id imType rows exp_assets cons_for_hazard 0 ([], [])
  pure r.2

end Eng

namespace Eng

theorem assetLoop_eq (N event_id : Nat) (rows : List GmfRow) (tc : TaxCons) :
    ∀ (assets : List (String × AssetRec)) (k : Nat) (st : Results × DsDescr),
      assetLoop event_id rows tc assets k (enginePerm N k) st
        = (specAssetLoop N event_id rows tc assets k st).map
            (fun r => (r.1, enginePerm N r.1, r.2))
  | [], k, st => rfl
  | (an, a) :: rest, k, st => by
      show Except.bind (processAsset event_id rows tc
            (PyRand.shuffleWithSeed (k+1) (enginePerm N k)) an a st) _
        = Except.map _ (Except.bind (processAsset event_id rows tc (enginePerm N (k+1)) an a st) _)
      rw [show PyRand.shuffleWithSeed (k+1) (enginePerm N k) = enginePerm N (k+1) from rfl]
      cases h : processAsset event_id rows tc (enginePerm N (k+1)) an a st with
      | error e => rfl
      | ok st' =>
          show assetLoop event_id rows tc rest (k+1) (enginePerm N (k+1)) st'
            = Except.map _ (specAssetLoop N event_id rows tc rest (k+1) st')
          exact assetLoop_eq N event_id rows tc rest (k+1) st'

theorem taxLoop_eq (N event_id : Nat) (imType : String) (rows : List GmfRow)
    (exp_assets : List (String × List (String × AssetRec))) :
    ∀ (cons : List (String × TaxCons)) (k : Nat) (st : Results × DsDescr),
      taxLoop event_id imType rows exp_assets cons k (enginePerm N k) st
        = (specTaxLoop N event_id imType rows exp_assets cons k st).map
            (fun r => (r.1, enginePerm N r.1, r.2))
  | [], k, st => rfl
  | (taxKey, tc) :: rest, k, st => by
      show (if strLower tc.im_type = strLower imType then _ else _)
        = Except.map _ (if strLower tc.im_type = strLower imType then _ else _)
      split
      · cases hA : dlookup exp_assets taxKey with
        | none => rfl
        | some assets =>
            show Except.bind (assetLoop event_id rows tc assets k (enginePerm N k) st) _
              = Except.map _ (Except.bind (specAssetLoop N event_id rows tc assets k st) _)
            rw [assetLoop_eq N event_id rows tc assets k st]
            cases h : specAssetLoop N event_id rows tc assets k st with
            | error e => rfl
            | ok r =>
                show taxLoop event_id imType rows exp_assets rest r.1 (enginePerm N r.1) r.2
                  = Except.map _ (specTaxLoop N event_id imType rows exp_assets rest r.1 r.2)
                exact taxLoop_eq N event_id imType rows exp_assets rest r.1 r.2
      · rfl

theorem allAssets_eq_spec (event_id : Nat) (imType : String) (gmf : List GmfRow)
    (cons_for_hazard : List (String × TaxCons)) (Nrealizations : Nat)
    (exp_assets : List (String × List (String × AssetRec))) :
    get_consequences_by_event_all_assets event_id imType gmf cons_for_hazard
        Nrealizations exp_assets
      = specAllAssets event_id imType gmf cons_for_hazard Nrealizations exp_assets := by
  show Except.bind (taxLoop event_id imType (gmf.filter (fun r => r.eid = event_id))
        exp_assets cons_for_hazard 0 (enginePerm Nrealizations 0) ([], [])) _
    = Except.bind (specTaxLoop Nrealizations event_id imType
        (gmf.filter (fun r => r.eid = event_id)) exp_assets cons_for_hazard 0 ([], [])) _
  rw [taxLoop_eq Nrealizations event_id imType (gmf.filter (fun r => r.eid = event_id))
        exp_assets cons_for_hazard 0 ([], [])]
  cases specTaxLoop Nrealizations event_id imType (gmf.filter (fun r => r.eid = event_id))
        exp_assets cons_for_hazard 0 ([], []) with
  | error e => rfl
  | ok r => rfl

end Eng

def c1comp : Eng.PyDict :=
  [("component", Eng.FieldVal.scalar (Eng.Scalar.str "c")),
   ("damage_state", Eng.FieldVal.list
     [Eng.Scalar.str "s0", Eng.Scalar.str "s1", Eng.Scalar.str "s2",
      Eng.Scalar.str "s3", Eng.Scalar.str "s4"])]

def c1rec : Eng.ConsRecord :=
  [("im_level", Eng.RecVal.field (Eng.FieldVal.scalar (Eng.Scalar.num 0))),
   ("consequences", Eng.RecVal.comps [c1comp])]

def c1tax : Eng.TaxCons :=
  ⟨"PGA", [c1rec], [[("component", Eng.FieldVal.scalar (Eng.Scalar.str "global"))]]⟩

def c1gmf : List Eng.GmfRow := [⟨0, 1, [0]⟩, ⟨0, 2, [0]⟩]

def c1cons : List (String × Eng.TaxCons) := [("T", c1tax)]

def c1exp : List (String × List (String × Eng.AssetRec)) :=
  [("T", [("a1", ⟨1⟩), ("a2", ⟨2⟩)])]

/-- The engine run on the two-asset fixture (N = 5, one event). -/
def c1run : Except Eng.PyErr (Eng.Results × Eng.DsDescr) :=
  Eng.get_consequences_by_event_all_assets 0 "PGA" c1gmf c1cons 5 c1exp

/-- The reindexed `damage_state` array the engine emits for the asset at
global traversal position 1 (`a2`). -/
def c1a2ds : Option Eng.FieldVal :=
  match c1run with
  | .ok (res, _) =>
      (Eng.dlookup res "0").bind fun d =>
        (Eng.dlookup d "a2").bind fun d2 =>
          (Eng.dlookup d2 "c").bind fun d3 => Eng.dlookup d3 "damage_state"
  | .error _ => none

set_option maxRecDepth 8000 in
/-- C1 counterexample: on a run with Nrealizations = 5 and two assets,
the asset at global position k = 1 is reindexed with the in-place
cumulative shuffle `[4,3,0,1,2]` (seed 2 applied to the already-shuffled
list), not with the seed-2 shuffle of the identity `[2,1,3,4,0]` the
claim predicts; the emitted `damage_state` array differs accordingly. -/
theorem c1_counterexample :
    c1a2ds = some (Eng.FieldVal.list
      [Eng.Scalar.str "s4", Eng.Scalar.str "s3", Eng.Scalar.str "s0",
       Eng.Scalar.str "s1", Eng.Scalar.str "s2"])
    ∧ Eng.reindexArr (PyRand.shuffleWithSeed 2 (List.range 5))
        [Eng.Scalar.str "s0", Eng.Scalar.str "s1", Eng.Scalar.str "s2",
         Eng.Scalar.str "s3", Eng.Scalar.str "s4"]
      = Except.ok
        [Eng.Scalar.str "s2", Eng.Scalar.str "s1", Eng.Scalar.str "s3",
         Eng.Scalar.str "s4", Eng.Scalar.str "s0"]
    ∧ c1a2ds ≠ some (Eng.FieldVal.list
      [Eng.Scalar.str "s2", Eng.Scalar.str "s1", Eng.Scalar.str "s3",
       Eng.Scalar.str "s4", Eng.Scalar.str "s0"]) := by
  refine ⟨by decide, by decide, by decide⟩

/-- C1 (amended): the engine shuffles one shared list in place, so the
permutation applied to the asset at 0-based global traversal position k
is the cumulative `enginePerm N (k+1)`: the identity `[0..N)` shuffled
successively with seeds 1, 2, ..., k+1 (`random.Random(s).shuffle`).
For k = 0 this is the seed-1 shuffle of the identity, as the original
claim states; for k ≥ 1 it is the seed-(k+1) shuffle of the previous
asset's permutation, not of the identity.  The permutation still depends
only on (k, Nrealizations).  The whole driver equals the
specification-side driver that assigns `enginePerm N (k+1)` to the asset
at position k of the taxonomy-then-asset traversal. -/
theorem c1_engine_permutation_cumulative :
    (∀ (event_id : Nat) (imType : String) (gmf : List Eng.GmfRow)
       (cons : List (String × Eng.TaxCons)) (N : Nat)
       (exp : List (String × List (String × Eng.AssetRec))),
       Eng.get_consequences_by_event_all_assets event_id imType gmf cons N exp
         = Eng.specAllAssets event_id imType gmf cons N exp)
    ∧ (∀ N : Nat, Eng.enginePerm N 1 = PyRand.shuffleWithSeed 1 (List.range N))
    ∧ (∀ N k : Nat, Eng.enginePerm N (k+1)
         = PyRand.shuffleWithSeed (k+1) (Eng.enginePerm N k)) :=
  ⟨fun a b c d e f => Eng.allAssets_eq_spec a b c d e f,
   fun _ => rfl, fun _ _ => rfl⟩

namespace Eng

theorem dlookup_dupdate_self {β : Type _} :
    ∀ (d : List (String × β)) (k : String) (v : β),
      dlookup (dupdate d k v) k = some v
  | [], k, v => by simp [dupdate, dlookup]
  | (k0, w) :: t, k, v => by
      by_cases h : k0 = k
      · simp [dupdate, dlookup, h]
      · simp only [dupdate, if_neg h, dlookup, if_neg h]
        exact dlookup_dupdate_self t k v

theorem dlookup_dupdate_ne {β : Type _} :
    ∀ (d : List (String × β)) (k : String) (v : β) (k' : String), k ≠ k' →
      dlookup (dupdate d k v) k' = dlookup d k'
  | [], k, v, k', h => by simp [dupdate, dlookup, h]
  | (k0, w) :: t, k, v, k', h => by
      by_cases h0 : k0 = k
      · subst h0
        simp [dupdate, dlookup, h]
      · simp only [dupdate, if_neg h0, dlookup]
        by_cases h1 : k0 = k'
        · simp [h1]
        · simp only [if_neg h1]
          exact dlookup_dupdate_ne t k v k' h

theorem reindexArr_ok_of_bounds (xs : List Scalar) :
    ∀ (rnd : List Nat), (∀ i ∈ rnd, i < xs.length) →
      reindexArr rnd xs = .ok (rnd.map (fun i => xs.getD i (Scalar.num 0)))
  | [], _ => rfl
  | i :: t, h => by
      have hi : i < xs.length := h i (List.mem_cons_self i t)
      have ht := reindexArr_ok_of_bounds xs t (fun j hj => h j (List.mem_cons_of_mem i hj))
      simp only [reindexArr, List.getElem?_eq_getElem hi, ht, Except.map, List.map]
      simp [List.getD, List.get?_eq_getElem?, List.getElem?_eq_getElem hi]

theorem reindexArr_getElem :
    ∀ (rnd : List Nat) (xs out : List Scalar), reindexArr rnd xs = .ok out →
      ∀ (i j : Nat), rnd[i]? = some j → out[i]? = xs[j]?
  | [], xs, out, h, i, j, hij => by simp at hij
  | a :: t, xs, out, h, i, j, hij => by
      simp only [reindexArr] at h
      cases ha : xs[a]? with
      | none => rw [ha] at h; exact absurd h (by simp)
      | some v =>
          rw [ha] at h
          cases hrest : reindexArr t xs with
          | error e => rw [hrest] at h; exact absurd h (by simp [Except.map])
          | ok l =>
              rw [hrest] at h
              simp only [Except.map, Except.ok.injEq] at h
              subst h
              match i with
              | 0 =>
                  simp only [List.getElem?_cons_zero, Option.some.injEq] at hij
                  subst hij
                  simpa using ha.symm
              | k+1 =>
                  simp only [List.getElem?_cons_succ] at hij ⊢
                  exact reindexArr_getElem t xs l hrest k j hij

theorem map_getD_range {α : Type _} (d : α) :
    ∀ (l : List α), (List.range l.length).map (fun i => l.getD i d) = l
  | [] => rfl
  | a :: t => by
      have ih := map_getD_range d t
      have hfun : ((fun i => (a :: t).getD i d) ∘ Nat.succ) = (fun i => t.getD i d) := by
        funext i; rfl
      rw [List.length_cons, List.range_succ_eq_map, List.map_cons, List.map_map, hfun, ih]
      rfl

theorem enginePerm_perm (N : Nat) :
    ∀ k : Nat, List.Perm (enginePerm N k) (List.range N)
  | 0 => List.Perm.refl _
  | k+1 =>
      List.Perm.trans (PyRand.shuffleWithSeed_perm (k+1) (enginePerm N k))
        (enginePerm_perm N k)

end Eng

namespace Eng

theorem except_bind_ok {ε α β : Type _} (a : α) (f : α → Except ε β) :
    (Except.ok a : Except ε α) >>= f = f a := rfl

theorem except_bind_err {ε α β : Type _} (e : ε) (f : α → Except ε β) :
    (Except.error e : Except ε α) >>= f = Except.error e := rfl

theorem addReindexed_skip (rnd : List Nat) (comp : PyDict)
    (guardKey readKey outKey : String) (inner : PyDict)
    (h : hasKey comp guardKey = false) :
    addReindexed rnd comp guardKey readKey outKey inner = .ok inner := by
  unfold addReindexed
  rw [h]
  rfl

theorem addReindexed_run (rnd : List Nat) (comp : PyDict)
    (guardKey readKey outKey : String) (inner : PyDict) (xs : List Scalar)
    (r : List Scalar) (h : hasKey comp guardKey = true)
    (hread : dlookup comp readKey = some (FieldVal.list xs))
    (hre : reindexArr rnd xs = .ok r) :
    addReindexed rnd comp guardKey readKey outKey inner
      = .ok (dupdate inner outKey (FieldVal.list r)) := by
  unfold addReindexed
  rw [h]
  simp only [getList, hread, hre, except_bind_ok]
  rfl

theorem addReindexed_lookup_other (rnd : List Nat) (comp : PyDict)
    (guardKey readKey outKey : String) (inner inner' : PyDict) (k : String)
    (hne : outKey ≠ k)
    (h : addReindexed rnd comp guardKey readKey outKey inner = .ok inner') :
    dlookup inner' k = dlookup inner k := by
  unfold addReindexed at h
  by_cases hg : hasKey comp guardKey
  · rw [hg] at h
    simp only [if_pos rfl] at h
    cases hr : getList comp readKey with
    | error e => rw [hr] at h; exact absurd h (by simp [except_bind_err])
    | ok xs =>
        rw [hr, except_bind_ok] at h
        cases hre : reindexArr rnd xs with
        | error e => rw [hre] at h; exact absurd h (by simp [except_bind_err])
        | ok r =>
            rw [hre, except_bind_ok] at h
            have : dupdate inner outKey (FieldVal.list r) = inner' := by
              simpa [pure, Except.pure] using h
            rw [← this]
            exact dlookup_dupdate_ne inner outKey (FieldVal.list r) k hne
  · rw [Bool.not_eq_true] at hg
    rw [hg] at h
    simp only [Bool.false_eq_true, if_neg] at h
    have : inner = inner' := by simpa [pure, Except.pure] using h
    rw [this]

end Eng

/-- C10: the index list the engine applies at every global traversal
position is a permutation of `[0..Nrealizations)` (the in-place shuffles
preserve this), and reindexing any realization array of length
`Nrealizations` with such an index list succeeds, has the same length,
and yields a rearrangement (same multiset) of the input array. -/
theorem c10_outputs_are_rearrangements :
    (∀ N k : Nat, List.Perm (Eng.enginePerm N k) (List.range N))
    ∧ (∀ (rnd : List Nat) (xs : List Eng.Scalar),
        List.Perm rnd (List.range xs.length) →
        Eng.reindexArr rnd xs
            = Except.ok (rnd.map (fun i => xs.getD i (Eng.Scalar.num 0)))
          ∧ (rnd.map (fun i => xs.getD i (Eng.Scalar.num 0))).length = xs.length
          ∧ List.Perm (rnd.map (fun i => xs.getD i (Eng.Scalar.num 0))) xs) := by
  constructor
  · exact fun N k => Eng.enginePerm_perm N k
  · intro rnd xs h
    have hb : ∀ i ∈ rnd, i < xs.length := by
      intro i hi
      exact List.mem_range.mp (h.mem_iff.mp hi)
    refine ⟨Eng.reindexArr_ok_of_bounds xs rnd hb, ?_, ?_⟩
    · rw [List.length_map, h.length_eq, List.length_range]
    · have hm := h.map (fun i => xs.getD i (Eng.Scalar.num 0))
      rwa [Eng.map_getD_range] at hm

/-- Witness for C10 at `N = 3`, `k = 2`, `rnd = [1, 0]`,
`xs = ["x", "y"]`. -/
theorem c10_witness :
    List.Perm (Eng.enginePerm 3 2) (List.range 3)
    ∧ (Eng.reindexArr [1, 0] [Eng.Scalar.str "x", Eng.Scalar.str "y"]
        = Except.ok ([1, 0].map (fun i =>
            [Eng.Scalar.str "x", Eng.Scalar.str "y"].getD i (Eng.Scalar.num 0)))
      ∧ ([1, 0].map (fun i =>
            [Eng.Scalar.str "x", Eng.Scalar.str "y"].getD i (Eng.Scalar.num 0))).length
          = [Eng.Scalar.str "x", Eng.Scalar.str "y"].length
      ∧ List.Perm ([1, 0].map (fun i =>
            [Eng.Scalar.str "x", Eng.Scalar.str "y"].getD i (Eng.Scalar.num 0)))
          [Eng.Scalar.str "x", Eng.Scalar.str "y"]) :=
  ⟨c10_outputs_are_rearrangements.1 3 2,
   c10_outputs_are_rearrangements.2 [1, 0]
     [Eng.Scalar.str "x", Eng.Scalar.str "y"] (by decide)⟩

/-- C4: reindexing satisfies `output[i] = array[P[i]]` for every
in-range index, and on the concrete fixture (`Nrealizations = 4`,
`P = [2,0,3,1]`, `damage_state = ["A","B","C","D"]`) the engine's Tier II
record processing emits exactly `["C","A","D","B"]`. -/
theorem c4_reindex_semantics :
    (∀ (rnd : List Nat) (xs out : List Eng.Scalar),
        Eng.reindexArr rnd xs = Except.ok out →
        ∀ (i j : Nat), rnd[i]? = some j → out[i]? = xs[j]?)
    ∧ Eng.processRecord
        [("global", Eng.RecVal.comp
          [("damage_state", Eng.FieldVal.list
            [Eng.Scalar.str "A", Eng.Scalar.str "B",
             Eng.Scalar.str "C", Eng.Scalar.str "D"])])]
        [2, 0, 3, 1]
      = Except.ok [("global",
          [("damage_state", Eng.FieldVal.list
            [Eng.Scalar.str "C", Eng.Scalar.str "A",
             Eng.Scalar.str "D", Eng.Scalar.str "B"])])] :=
  ⟨fun rnd xs out h i j hij => Eng.reindexArr_getElem rnd xs out h i j hij, by decide⟩

/-- Witness for C4: apply the theorem at `rnd = [1,0]`,
`xs = [5, 7]`, `out = [7, 5]`, `i = 0`, `j = 1`. -/
theorem c4_witness :
    ([Eng.Scalar.num 7, Eng.Scalar.num 5] : List Eng.Scalar)[0]?
      = ([Eng.Scalar.num 5, Eng.Scalar.num 7] : List Eng.Scalar)[1]? :=
  c4_reindex_semantics.1 [1, 0] [Eng.Scalar.num 5, Eng.Scalar.num 7]
    [Eng.Scalar.num 7, Eng.Scalar.num 5] (by decide) 0 1 (by decide)

/-- C5: schema dispatch of `get_consequences_by_event`: a record with
two or more keys is processed by the Tier I branch (per-component loop
over `rec['consequences']`); a record with exactly the single key
`global` is processed by the Tier II branch (reindexing `cost`,
`damage_state`, `recovery` under `rec['global']`). -/
theorem c5_tier_dispatch :
    (∀ (rec : Eng.ConsRecord) (rnd : List Nat), 2 ≤ rec.length →
        Eng.processRecord rec rnd = Eng.tierIProcess rnd rec)
    ∧ (∀ (v : Eng.RecVal) (rnd : List Nat),
        Eng.processRecord [("global", v)] rnd
          = Eng.tierIIProcess rnd [("global", v)]) := by
  constructor
  · intro rec rnd h
    unfold Eng.processRecord
    exact if_pos h
  · intro v rnd
    unfold Eng.processRecord
    rw [if_neg (by simp)]

/-- Witness for C5 at the two-key Tier I fixture `c1rec` and a one-key
Tier II fixture. -/
theorem c5_witness :
    Eng.processRecord c1rec [0] = Eng.tierIProcess [0] c1rec
    ∧ Eng.processRecord [("global", Eng.RecVal.comp [])] [0]
        = Eng.tierIIProcess [0] [("global", Eng.RecVal.comp [])] :=
  ⟨c5_tier_dispatch.1 c1rec [0] (by decide),
   c5_tier_dispatch.2 (Eng.RecVal.comp []) [0]⟩

def c6comp : Eng.PyDict :=
  [("component", Eng.FieldVal.scalar (Eng.Scalar.str "global")),
   ("recovery_realizations", Eng.FieldVal.list
     [Eng.Scalar.num 10, Eng.Scalar.num 11, Eng.Scalar.num 12])]

def c6rec : Eng.ConsRecord :=
  [("im_level", Eng.RecVal.field (Eng.FieldVal.scalar (Eng.Scalar.num 0))),
   ("consequences", Eng.RecVal.comps [c6comp])]

/-- C6 counterexample: a Tier I record whose `global` component carries
`recovery_realizations` but no key `recovery`; the engine emits an empty
`global` component — the recovery realizations are silently dropped. -/
theorem c6_counterexample :
    Eng.dlookup c6comp "recovery_realizations"
      = some (Eng.FieldVal.list
        [Eng.Scalar.num 10, Eng.Scalar.num 11, Eng.Scalar.num 12])
    ∧ Eng.processRecord c6rec [2, 0, 1] = Except.ok [("global", [])] :=
  ⟨by decide, by decide⟩

/-- C6 (amended): the Tier I recovery reindexing is guarded by the
presence of the key `recovery` in the `global` component: when the key
`recovery` is present, `recovery_realizations` is reindexed with the same
permutation `rnd` used for the component's other arrays and stored under
`recovery`; when the key `recovery` is absent, recovery is silently
omitted even if `recovery_realizations` is present. -/
theorem c6_recovery_guarded_by_recovery_key :
    (∀ (comp : Eng.PyDict) (rnd : List Nat) (xs r : List Eng.Scalar),
        Eng.dlookup comp "component"
            = some (Eng.FieldVal.scalar (Eng.Scalar.str "global")) →
        Eng.hasKey comp "recovery" = true →
        Eng.dlookup comp "recovery_realizations" = some (Eng.FieldVal.list xs) →
        Eng.reindexArr rnd xs = Except.ok r →
        ∀ (name : String) (inner : Eng.PyDict),
          Eng.tierIComp rnd comp = Except.ok (name, inner) →
          name = "global" ∧ Eng.dlookup inner "recovery" = some (Eng.FieldVal.list r))
    ∧ (∀ (comp : Eng.PyDict) (rnd : List Nat),
        Eng.dlookup comp "component"
            = some (Eng.FieldVal.scalar (Eng.Scalar.str "global")) →
        Eng.hasKey comp "recovery" = false →
        ∀ (name : String) (inner : Eng.PyDict),
          Eng.tierIComp rnd comp = Except.ok (name, inner) →
          Eng.dlookup inner "recovery" = none) := by
  constructor
  · intro comp rnd xs r hc hr hread hre name inner h
    unfold Eng.tierIComp at h
    simp only [hc, if_true] at h
    rw [Eng.addReindexed_run rnd comp "recovery" "recovery_realizations" "recovery" []
          xs r hr hread hre, Eng.except_bind_ok] at h
    cases h2 : Eng.addReindexed rnd comp "cost" "cost" "cost"
        (Eng.dupdate [] "recovery" (Eng.FieldVal.list r)) with
    | error e => rw [h2, Eng.except_bind_err] at h; exact absurd h (by simp)
    | ok inner2 =>
        rw [h2, Eng.except_bind_ok] at h
        cases h3 : Eng.addReindexed rnd comp "damage_state" "damage_state" "damage_state"
            inner2 with
        | error e => rw [h3, Eng.except_bind_err] at h; exact absurd h (by simp)
        | ok inner3 =>
            rw [h3, Eng.except_bind_ok] at h
            have hpair : name = "global" ∧ inner3 = inner := by
              have := h
              simp only [pure, Except.pure, Except.ok.injEq, Prod.mk.injEq] at this
              exact ⟨this.1.symm, this.2⟩
            obtain ⟨hname, hinner⟩ := hpair
            subst hname
            subst hinner
            refine ⟨rfl, ?_⟩
            rw [Eng.addReindexed_lookup_other rnd comp "damage_state" "damage_state"
                  "damage_state" inner2 inner3 "recovery" (by decide) h3,
                Eng.addReindexed_lookup_other rnd comp "cost" "cost" "cost"
                  (Eng.dupdate [] "recovery" (Eng.FieldVal.list r)) inner2 "recovery"
                  (by decide) h2,
                Eng.dlookup_dupdate_self]
  · intro comp rnd hc hr name inner h
    unfold Eng.tierIComp at h
    simp only [hc, if_true] at h
    rw [Eng.addReindexed_skip rnd comp "recovery" "recovery_realizations" "recovery" [] hr,
        Eng.except_bind_ok] at h
    cases h2 : Eng.addReindexed rnd comp "cost" "cost" "cost" [] with
    | error e => rw [h2, Eng.except_bind_err] at h; exact absurd h (by simp)
    | ok inner2 =>
        rw [h2, Eng.except_bind_ok] at h
        cases h3 : Eng.addReindexed rnd comp "damage_state" "damage_state" "damage_state"
            inner2 with
        | error e => rw [h3, Eng.except_bind_err] at h; exact absurd h (by simp)
        | ok inner3 =>
            rw [h3, Eng.except_bind_ok] at h
            have hpair : name = "global" ∧ inner3 = inner := by
              have := h
              simp only [pure, Except.pure, Except.ok.injEq, Prod.mk.injEq] at this
              exact ⟨this.1.symm, this.2⟩
            obtain ⟨hname, hinner⟩ := hpair
            subst hinner
            rw [Eng.addReindexed_lookup_other rnd comp "damage_state" "damage_state"
                  "damage_state" inner2 inner3 "recovery" (by decide) h3,
                Eng.addReindexed_lookup_other rnd comp "cost" "cost" "cost" [] inner2
                  "recovery" (by decide) h2]
            rfl

def c6compB : Eng.PyDict :=
  [("component", Eng.FieldVal.scalar (Eng.Scalar.str "global")),
   ("recovery", Eng.FieldVal.scalar (Eng.Scalar.num 1)),
   ("recovery_realizations", Eng.FieldVal.list [Eng.Scalar.num 10, Eng.Scalar.num 11])]

/-- Witness for C6 on a component that carries both the `recovery` key
and `recovery_realizations`. -/
theorem c6_witness :
    "global" = "global"
    ∧ Eng.dlookup [("recovery", Eng.FieldVal.list [Eng.Scalar.num 11, Eng.Scalar.num 10])]
        "recovery"
      = some (Eng.FieldVal.list [Eng.Scalar.num 11, Eng.Scalar.num 10]) :=
  c6_recovery_guarded_by_recovery_key.1 c6compB [1, 0]
    [Eng.Scalar.num 10, Eng.Scalar.num 11] [Eng.Scalar.num 11, Eng.Scalar.num 10]
    (by decide) (by decide) (by decide) (by decide) "global"
    [("recovery", Eng.FieldVal.list [Eng.Scalar.num 11, Eng.Scalar.num 10])] (by decide)

namespace Filt

/-- One row of the `events` dataset: event id and rupture id. -/
structure EventRow where
  id : Nat
  rup_id : Nat
deriving DecidableEq

/-- One row of the `ruptures` dataset: rupture id, magnitude, hypocenter
coordinates (the code uses `hypo[:, :2]`, the first two components). -/
structure RupRow where
  id : Nat
  mag : ℚ
  hypo : List ℚ
deriving DecidableEq

/-- Python truthiness of an optional float argument (`None` and `0.0`
are falsy). -/
def truthyQ : Option ℚ → Bool
  | none => false
  | some q => decide (q ≠ 0)

/-- `events_of_interest.add(event)` for the Python `set` (the embedded
set is an insertion-ordered duplicate-free list; only membership matters
downstream, since `fiter_imfield_data` sorts the derived indices). -/
def setAdd (l : List Nat) (x : Nat) : List Nat := if x ∈ l then l else l ++ [x]

/-- Per-asset stage-1 candidate events (`im_fields.py` lines 42-53):
method 1 keeps every event with a ground-motion row at the asset's site;
method 2 additionally requires the first-stripe intensity to be ≥ the
threshold; any other method leaves `events` unbound (NameError). -/
def stage1AssetEvents (rows : List Eng.GmfRow) (method : Nat) (thr : Option ℚ) (sid : ℚ) :
    Except Eng.PyErr (List Nat) :=
  if method = 1 then
    .ok ((rows.filter (fun r => r.sid = sid)).map Eng.GmfRow.eid)
  else if method = 2 then
    match thr with
    | none => .error .typeError
    | some t =>
        .ok (((rows.filter (fun r => r.sid = sid)).filter
          (fun r => t ≤ r.gmv.getD 0 0)).map Eng.GmfRow.eid)
  else .error .nameError

def stage1AssetLoop (rows : List Eng.GmfRow) (method : Nat) (thr : Option ℚ) :
    List (String × Eng.AssetRec) → List Nat → Except Eng.PyErr (List Nat)
  | [], acc => .ok acc
  | (_, a) :: rest, acc => do
      let evs ← stage1AssetEvents rows method thr a.hazard_sid
      stage1AssetLoop rows method thr rest (evs.foldl setAdd acc)

def stage1TaxLoop (imType : String) (rows : List Eng.GmfRow)
    (exp_assets : List (String × List (String × Eng.AssetRec))) (method : Nat)
    (thr : Option ℚ) :
    List (String × Eng.TaxCons) → List Nat → Except Eng.PyErr (List Nat)
  | [], acc => .ok acc
  | (taxKey, tc) :: rest, acc =>
      if Eng.strLower tc.im_type = Eng.strLower imType then
        match Eng.dlookup exp_assets taxKey with
        | none => .error .keyError
        | some assets => do
            let acc ← stage1AssetLoop rows method thr assets acc
            stage1TaxLoop imType rows exp_assets method thr rest acc
      else .error .assertionError

/-- `filter_events_by_imvalue` (`im_fields.py` lines 9-56): the
`raise Warning` when a truthy threshold is supplied in presence mode,
the taxonomy/asset traversal, and the final
`assert len(events_of_interest) > 0`. -/
def filter_events_by_imvalue (cons : List (String × Eng.TaxCons)) (imType : String)
    (rows : List Eng.GmfRow) (exp_assets : List (String × List (String × Eng.AssetRec)))
    (method : Nat) (thr : Option ℚ) : Except Eng.PyErr (List Nat) :=
  if method = 1 ∧ truthyQ thr then .error .warning
  else do
    let eoi ← stage1TaxLoop imType rows exp_assets method thr cons []
    if eoi = [] then .error .assertionError else .ok eoi

/-- `list(...).index(x)`: index of the first occurrence, ValueError when
absent. -/
def pyIndex : List Nat → Nat → Except Eng.PyErr Nat
  | [], _ => .error .valueError
  | a :: t, x => if a = x then .ok 0 else (pyIndex t x).map (fun i => i + 1)

def insertSorted (a : Nat) : List Nat → List Nat
  | [] => [a]
  | b :: l => if a ≤ b then a :: b :: l else b :: insertSorted a l

/-- Python's `sorted` on the index lists (insertion sort). -/
def sortNat (l : List Nat) : List Nat := l.foldr insertSorted []

/-- numpy fancy indexing `table[idxs]`. -/
def rowsAt {α : Type _} (table : List α) : List Nat → Except Eng.PyErr (List α)
  | [] => .ok []
  | i :: t =>
      match table[i]? with
      | some r => (rowsAt table t).map (fun l => r :: l)
      | none => .error .indexError

def mapExcept {α β : Type _} (f : α → Except Eng.PyErr β) :
    List α → Except Eng.PyErr (List β)
  | [] => .ok []
  | a :: t =>
      match f a with
      | .ok b => (mapExcept f t).map (fun l => b :: l)
      | .error e => .error e

/-- `fiter_imfield_data` (`im_fields.py` lines 59-78): select the event
rows of the surviving event ids (at sorted first-occurrence indices),
then the rupture rows of their `rup_id`s (again at sorted
first-occurrence indices, with multiplicity). -/
def fiter_imfield_data (events : List EventRow) (ruptures : List RupRow)
    (eoi : List Nat) : Except Eng.PyErr (List EventRow × List RupRow) := do
  let idx1 ← mapExcept (fun eid => pyIndex (events.map EventRow.id) eid) eoi
  let fev ← rowsAt events (sortNat idx1)
  let idx2 ← mapExcept (fun rupid => pyIndex (ruptures.map RupRow.id) rupid)
    (fev.map EventRow.rup_id)
  let frup ← rowsAt ruptures (sortNat idx2)
  pure (fev, frup)

/-- The magnitude mask (`im_fields.py` lines 105-114), with Python
truthiness on the optional bounds. -/
def magMask (min_mag max_mag : Option ℚ) (m : ℚ) : Bool :=
  if truthyQ min_mag && truthyQ max_mag then
    decide (min_mag.getD 0 ≤ m) && decide (m ≤ max_mag.getD 0)
  else if truthyQ min_mag then decide (min_mag.getD 0 ≤ m)
  else if truthyQ max_mag then decide (m ≤ max_mag.getD 0)
  else true

/-- The distance stage (`im_fields.py` lines 117-133): requires the
reference coordinates when either bound is truthy; `distFn` embeds
`geopy.distance.distance((hypo[0], hypo[1]), (cent_lon, cent_lat)).km`.
Returns the surviving rupture ids. -/
def distStage (frupByMag : List RupRow) (min_dist max_dist : Option ℚ)
    (ref_coords : Option (ℚ × ℚ)) (distFn : ℚ × ℚ → ℚ × ℚ → ℚ) :
    Except Eng.PyErr (List Nat) :=
  if truthyQ min_dist || truthyQ max_dist then
    match ref_coords with
    | none => .error .assertionError
    | some rc =>
        if truthyQ min_dist && truthyQ max_dist then
          .ok ((frupByMag.filter (fun r =>
            decide (min_dist.getD 0 ≤ distFn (r.hypo.getD 0 0, r.hypo.getD 1 0) rc)
            && decide (distFn (r.hypo.getD 0 0, r.hypo.getD 1 0) rc ≤ max_dist.getD 0))).map
              RupRow.id)
        else if truthyQ min_dist then
          .ok ((frupByMag.filter (fun r =>
            decide (min_dist.getD 0 ≤ distFn (r.hypo.getD 0 0, r.hypo.getD 1 0) rc))).map
              RupRow.id)
        else if truthyQ max_dist then
          .ok ((frupByMag.filter (fun r =>
            decide (distFn (r.hypo.getD 0 0, r.hypo.getD 1 0) rc ≤ max_dist.getD 0))).map
              RupRow.id)
        else .error .nameError
  else .ok (frupByMag.map RupRow.id)

/-- Stages 2 and 3 plus the final rupture-to-event mapping
(`im_fields.py` lines 104-139): magnitude mask, distance stage, then
`[list(fev['rup_id']).index(r) for r in ruptures]` and the event ids at
those indices. -/
def stage23 (fev : List EventRow) (frup : List RupRow)
    (min_mag max_mag min_dist max_dist : Option ℚ) (ref_coords : Option (ℚ × ℚ))
    (distFn : ℚ × ℚ → ℚ × ℚ → ℚ) : Except Eng.PyErr (List Nat) := do
  let frupByMag := frup.filter (fun r => magMask min_mag max_mag r.mag)
  let ruptureIds ← distStage frupByMag min_dist max_dist ref_coords distFn
  let evIdx ← mapExcept (fun r => pyIndex (fev.map EventRow.rup_id) r) ruptureIds
  mapExcept (fun i =>
    match (fev.map EventRow.id)[i]? with
    | some e => Except.ok e
    | none => Except.error Eng.PyErr.indexError) evIdx

/-- `filter_events` (`im_fields.py` lines 81-139): the filtering method
is 2 iff the threshold is truthy; stage 1, the event/rupture selection,
then stages 2-3. -/
def filter_events (cons : List (String × Eng.TaxCons)) (imType : String)
    (rows : List Eng.GmfRow) (exp_assets : List (String × List (String × Eng.AssetRec)))
    (events : List EventRow) (ruptures : List RupRow)
    (min_mag max_mag : Option ℚ) (IM_threshold : Option ℚ)
    (min_dist max_dist : Option ℚ) (ref_coords : Option (ℚ × ℚ))
    (distFn : ℚ × ℚ → ℚ × ℚ → ℚ) : Except Eng.PyErr (List Nat) := do
  let method := if truthyQ IM_threshold = false then 1 else 2
  let eoi ← filter_events_by_imvalue cons imType rows exp_assets method IM_threshold
  let ff ← fiter_imfield_data events ruptures eoi
  stage23 ff.1 ff.2 min_mag max_mag min_dist max_dist ref_coords distFn

end Filt

theorem except_bind_ok_inv {ε α β : Type _} {x : Except ε α} {f : α → Except ε β}
    {b : β} (h : x >>= f = Except.ok b) : ∃ a, x = Except.ok a ∧ f a = Except.ok b := by
  cases x with
  | ok a => exact ⟨a, rfl, h⟩
  | error e => exact absurd h (by simp [Eng.except_bind_err])

def c3tax : Eng.TaxCons := ⟨"PGA", [], []⟩

def c3cons : List (String × Eng.TaxCons) := [("T", c3tax)]

def c3exp : List (String × List (String × Eng.AssetRec)) := [("T", [("a", ⟨1⟩)])]

def c3gmf : List Eng.GmfRow := [⟨10, 1, [1]⟩]

def c3events : List Filt.EventRow := [⟨10, 7⟩]

def c3rups : List Filt.RupRow := [⟨7, 5, [0, 0]⟩]

/-- C3 counterexample: a run whose stage-1 candidate set is the nonempty
`{10}` but whose magnitude stage removes every rupture returns the empty
event list as a normal (`ok`) result — no `EmptyResultError` after
stages 2-3. -/
theorem c3_counterexample :
    Filt.filter_events c3cons "PGA" c3gmf c3exp c3events c3rups
        (some 6) none (some 1) none none none (fun _ _ => 0)
      = Except.ok []
    ∧ Filt.filter_events_by_imvalue c3cons "PGA" c3gmf c3exp 2 (some 1)
      = Except.ok [10] :=
  ⟨by decide, by decide⟩

/-- C3 (amended): the emptiness check runs only after stage 1: the
candidate-selection stage never returns an empty set as a normal result
(it raises the assertion instead), and a successful full pipeline run
implies a nonempty stage-1 set; but an empty set after stages 2-3 is
returned as a normal result (see the counterexample). -/
theorem c3_emptiness_checked_after_stage1_only :
    (∀ (cons : List (String × Eng.TaxCons)) (imType : String) (rows : List Eng.GmfRow)
       (exp_assets : List (String × List (String × Eng.AssetRec))) (method : Nat)
       (thr : Option ℚ) (eoi : List Nat),
       Filt.filter_events_by_imvalue cons imType rows exp_assets method thr
           = Except.ok eoi → eoi ≠ [])
    ∧ (∀ (cons : List (String × Eng.TaxCons)) (imType : String) (rows : List Eng.GmfRow)
       (exp_assets : List (String × List (String × Eng.AssetRec)))
       (events : List Filt.EventRow) (ruptures : List Filt.RupRow)
       (mn mx thr mnd mxd : Option ℚ) (rc : Option (ℚ × ℚ))
       (dF : ℚ × ℚ → ℚ × ℚ → ℚ) (out : List Nat),
       Filt.filter_events cons imType rows exp_assets events ruptures mn mx thr mnd mxd
           rc dF = Except.ok out →
       ∃ eoi, Filt.filter_events_by_imvalue cons imType rows exp_assets
           (if Filt.truthyQ thr = false then 1 else 2) thr = Except.ok eoi ∧ eoi ≠ []) := by
  have base : ∀ (cons : List (String × Eng.TaxCons)) (imType : String)
      (rows : List Eng.GmfRow) (exp_assets : List (String × List (String × Eng.AssetRec)))
      (method : Nat) (thr : Option ℚ) (eoi : List Nat),
      Filt.filter_events_by_imvalue cons imType rows exp_assets method thr
          = Except.ok eoi → eoi ≠ [] := by
    intro cons imType rows exp_assets method thr eoi h
    unfold Filt.filter_events_by_imvalue at h
    by_cases hw : method = 1 ∧ Filt.truthyQ thr
    · rw [if_pos hw] at h
      exact absurd h (by simp)
    · rw [if_neg hw] at h
      cases hs : Filt.stage1TaxLoop imType rows exp_assets method thr cons [] with
      | error e => rw [hs, Eng.except_bind_err] at h; exact absurd h (by simp)
      | ok l =>
          rw [hs, Eng.except_bind_ok] at h
          by_cases hl : l = []
          · rw [if_pos hl] at h
            exact absurd h (by simp)
          · rw [if_neg hl] at h
            simp only [Except.ok.injEq] at h
            rw [← h]
            exact hl
  refine ⟨base, ?_⟩
  intro cons imType rows exp_assets events ruptures mn mx thr mnd mxd rc dF out h
  unfold Filt.filter_events at h
  obtain ⟨eoi, hs, -⟩ := except_bind_ok_inv h
  exact ⟨eoi, hs, base cons imType rows exp_assets _ thr eoi hs⟩

/-- Witness for C3 on the concrete fixture (stage 1 succeeds with `{10}`
and a full run with `min_mag = 5` succeeds). -/
theorem c3_witness :
    (([10] : List Nat) ≠ [])
    ∧ (∃ eoi, Filt.filter_events_by_imvalue c3cons "PGA" c3gmf c3exp
        (if Filt.truthyQ (some 1) = false then 1 else 2) (some 1)
          = Except.ok eoi ∧ eoi ≠ []) :=
  ⟨c3_emptiness_checked_after_stage1_only.1 c3cons "PGA" c3gmf c3exp 2 (some 1)
      [10] (by decide),
   c3_emptiness_checked_after_stage1_only.2 c3cons "PGA" c3gmf c3exp c3events c3rups
      (some 5) none (some 1) none none none (fun _ _ => 0) [10] (by decide)⟩

/-- C8 counterexample: in presence mode (method 1) with a truthy
threshold the function raises `Warning` and aborts; the presence-mode
candidate set `{10}` (returned when no threshold is supplied) is not
produced. -/
theorem c8_counterexample :
    Filt.filter_events_by_imvalue c3cons "PGA" c3gmf c3exp 1 (some 2)
      = Except.error Eng.PyErr.warning
    ∧ Filt.filter_events_by_imvalue c3cons "PGA" c3gmf c3exp 1 none
      = Except.ok [10] :=
  ⟨by decide, by decide⟩

/-- C8 (amended): supplying a truthy threshold while in presence mode is
fatal: `raise Warning` aborts `filter_events_by_imvalue` before stage-1
candidate selection runs (the `Warning` is raised as an exception, not
emitted as a non-fatal warning; the threshold is not ignored). -/
theorem c8_presence_mode_threshold_raises :
    ∀ (cons : List (String × Eng.TaxCons)) (imType : String) (rows : List Eng.GmfRow)
      (exp_assets : List (String × List (String × Eng.AssetRec))) (thr : Option ℚ),
      Filt.truthyQ thr = true →
      Filt.filter_events_by_imvalue cons imType rows exp_assets 1 thr
        = Except.error Eng.PyErr.warning := by
  intro cons imType rows exp_assets thr ht
  unfold Filt.filter_events_by_imvalue
  rw [if_pos ⟨rfl, ht⟩]

/-- Witness for C8 at a concrete truthy threshold. -/
theorem c8_witness :
    Filt.filter_events_by_imvalue c3cons "PGA" c3gmf c3exp 1 (some 1)
      = Except.error Eng.PyErr.warning :=
  c8_presence_mode_threshold_raises c3cons "PGA" c3gmf c3exp (some 1) (by decide)

namespace Expo

/-- One row of the exposure-site metadata (`site_mtdata`). -/
structure SiteRow where
  site_id : ℚ
  lon : ℚ
  lat : ℚ
deriving DecidableEq

/-- One row of the IM-field site collection (`sitecol`): latitude,
longitude and hazard site id. -/
structure SiteCol where
  lat : ℚ
  lon : ℚ
  sid : ℚ
deriving DecidableEq

/-- The slice of an exposure asset `exposure_by_taxonomy` reads and
annotates: taxonomy, asset type and the `location` dict. -/
structure ExpAsset where
  taxonomy : String
  asset_type : String
  location : Eng.PyDict
deriving DecidableEq

/-- `numpy.sort(xs)[0]` on a numeric list: the minimum (`none` embeds
the error raised on an empty or non-numeric list). -/
def minNumScalar : List Eng.Scalar → Option ℚ
  | [Eng.Scalar.num q] => some q
  | Eng.Scalar.num q :: t => (minNumScalar t).map (fun m => if q ≤ m then q else m)
  | _ => none

/-- `find_asset_sid` (`exposure.py` lines 148-174): point assets use the
`sid` list (itself, when it has one entry), else the explicit
`hzrd_ctrl_pnt`, else the numerically smallest candidate; area assets
use `hzrd_ctrl_pnt`; any other type leaves `site_id` unbound. -/
def find_asset_sid (location : Eng.PyDict) (asset_type : String) :
    Except Eng.PyErr Eng.FieldVal :=
  if Eng.strLower asset_type = "point" then
    match Eng.dlookup location "sid" with
    | none => .error .keyError
    | some (Eng.FieldVal.list sids) =>
        if sids.length = 1 then .ok (Eng.FieldVal.list sids)
        else
          match Eng.dlookup location "hzrd_ctrl_pnt" with
          | some v => .ok v
          | none =>
              match minNumScalar sids with
              | some q => .ok (Eng.FieldVal.scalar (Eng.Scalar.num q))
              | none => .error .typeError
    | some _ => .error .typeError
  else if Eng.strLower asset_type = "area" then
    match Eng.dlookup location "hzrd_ctrl_pnt" with
    | some v => .ok v
    | none => .error .keyError
  else .error .nameError

/-- The value a site-id field contributes to a numpy `==` comparison: a
number compares directly; a one-element list broadcasts to its entry. -/
def sidKey : Eng.FieldVal → Option ℚ
  | Eng.FieldVal.scalar (Eng.Scalar.num q) => some q
  | Eng.FieldVal.list [Eng.Scalar.num q] => some q
  | _ => none

/-- The geodesic distances from the asset's coordinate to every hazard
site (`geo_dist` in `exposure.py` lines 216-218); `distFn` embeds
`geopy.distance.distance((site_lat, site_lon), (asset_lat, asset_lon)).km`. -/
def geoDistances (sitecol : List SiteCol) (distFn : ℚ × ℚ → ℚ × ℚ → ℚ)
    (assetLat assetLon : ℚ) : List ℚ :=
  sitecol.map (fun s => distFn (s.lat, s.lon) (assetLat, assetLon))

/-- Geodesic matching (`exposure.py` lines 216-223): first index of the
minimal distance, `assert geo_dist[min_dist_idx] < max_allowable_dist`,
then the hazard site id at that index (`float < None` raises when no
maximum distance is supplied). -/
def geodesicResolve (sitecol : List SiteCol) (distFn : ℚ × ℚ → ℚ × ℚ → ℚ)
    (assetLat assetLon : ℚ) (maxd : Option ℚ) : Except Eng.PyErr ℚ := do
  let geoDist := geoDistances sitecol distFn assetLat assetLon
  let minIdx ← Eng.pyMinRange (fun i => geoDist.getD i 0) geoDist.length
  match maxd with
  | none => .error .typeError
  | some d =>
      if geoDist.getD minIdx 0 < d then
        .ok ((sitecol.map SiteCol.sid).getD minIdx 0)
      else .error .assertionError

/-- `int(sid)` / `sid[0]` with the `isinstance(..., int)` assertion of
the direct (`hazard2exppoints_consistency=True`) branch
(`exposure.py` lines 224-229). -/
def directSid : Eng.FieldVal → Except Eng.PyErr ℚ
  | Eng.FieldVal.scalar (Eng.Scalar.num q) => .ok q
  | Eng.FieldVal.list l =>
      match l with
      | Eng.Scalar.num q :: _ => if q.den = 1 then .ok q else .error .assertionError
      | _ :: _ => .error .assertionError
      | [] => .error .indexError
  | _ => .error .typeError

/-- Resolution of one asset to its hazard site id (`exposure.py` lines
204-229): geodesic mode looks the asset's coordinate up in
`site_mtdata` (asserting exactly one match) and matches against every
hazard site; direct mode converts the sid reference. -/
def processExpAsset (consistency : Bool) (site_mtdata : List SiteRow)
    (sitecol : List SiteCol) (distFn : ℚ × ℚ → ℚ × ℚ → ℚ) (maxd : Option ℚ)
    (asset : ExpAsset) : Except Eng.PyErr ℚ := do
  let sid ← find_asset_sid asset.location asset.asset_type
  if consistency = false then
    match sidKey sid with
    | none => .error .typeError
    | some sk =>
        match site_mtdata.filter (fun r => r.site_id = sk) with
        | [m] => geodesicResolve sitecol distFn m.lat m.lon maxd
        | _ => .error .assertionError
  else directSid sid

/-- The asset annotation applied in place:
`asset['location'].update({'hazard_sid': hazard_sid})`. -/
def annotate (a : ExpAsset) (hs : ℚ) : ExpAsset :=
  ⟨a.taxonomy, a.asset_type,
   Eng.dupdate a.location "hazard_sid" (Eng.FieldVal.scalar (Eng.Scalar.num hs))⟩

/-- One taxonomy pass of `exposure_by_taxonomy`: scan the caller's
asset mapping in order, resolve and annotate (in place) every asset of
the given taxonomy.  Returns the caller's mapping after the pass and
the `(name, asset)` pairs collected for this taxonomy — the same
annotated objects in both, which models the Python aliasing. -/
def expoTaxStep (tax : String) (consistency : Bool) (site_mtdata : List SiteRow)
    (sitecol : List SiteCol) (distFn : ℚ × ℚ → ℚ × ℚ → ℚ) (maxd : Option ℚ) :
    List (String × ExpAsset) →
    Except Eng.PyErr (List (String × ExpAsset) × List (String × ExpAsset))
  | [] => .ok ([], [])
  | (name, a) :: rest =>
      if a.taxonomy = tax then do
        let hs ← processExpAsset consistency site_mtdata sitecol distFn maxd a
        let r ← expoTaxStep tax consistency site_mtdata sitecol distFn maxd rest
        .ok ((name, annotate a hs) :: r.1, (name, annotate a hs) :: r.2)
      else do
        let r ← expoTaxStep tax consistency site_mtdata sitecol distFn maxd rest
        .ok ((name, a) :: r.1, r.2)

def expoTaxLoop (consistency : Bool) (site_mtdata : List SiteRow)
    (sitecol : List SiteCol) (distFn : ℚ × ℚ → ℚ × ℚ → ℚ) (maxd : Option ℚ) :
    List String → List (String × ExpAsset) →
    List (String × List (String × ExpAsset)) →
    Except Eng.PyErr (List (String × ExpAsset) × List (String × List (String × ExpAsset)))
  | [], heap, acc => .ok (heap, acc)
  | tax :: rest, heap, acc => do
      let r ← expoTaxStep tax consistency site_mtdata sitecol distFn maxd heap
      expoTaxLoop consistency site_mtdata sitecol distFn maxd rest r.1
        (acc ++ [(tax, r.2)])

/-- `exposure_by_taxonomy` (`exposure.py` lines 177-232).  `taxKeys` are
the keys of `cons_for_hazard` in order.  Returns the
`assets_by_taxonomy` mapping together with the post-state of the
caller's `exp_assets` (the in-place `location.update` is modelled by
explicit state passing; the Python function's return value is the first
component, and the second shows what the caller's objects look like
after the call). -/
def exposure_by_taxonomy (exp_assets : List (String × ExpAsset)) (taxKeys : List String)
    (consistency : Bool) (sitecol : List SiteCol) (site_mtdata : List SiteRow)
    (maxd : Option ℚ) (distFn : ℚ × ℚ → ℚ × ℚ → ℚ) :
    Except Eng.PyErr
      (List (String × List (String × ExpAsset)) × List (String × ExpAsset)) := do
  let r ← expoTaxLoop consistency site_mtdata sitecol distFn maxd taxKeys exp_assets []
  .ok (r.2, r.1)

end Expo

namespace Eng

theorem pyMinRangeAux_spec (f : Nat → ℚ) :
    ∀ (fuel i best : Nat) (bestv : ℚ),
      bestv = f best →
      best < i →
      (∀ j, j < i → f best ≤ f j) →
      (∀ j, j < best → f best < f j) →
      pyMinRangeAux f fuel i best bestv < i + fuel
      ∧ (∀ j, j < i + fuel → f (pyMinRangeAux f fuel i best bestv) ≤ f j)
      ∧ (∀ j, j < pyMinRangeAux f fuel i best bestv →
          f (pyMinRangeAux f fuel i best bestv) < f j)
  | 0, i, best, bestv, hv, hlt, hle, hstrict => by
      simpa [pyMinRangeAux] using ⟨hlt, hle, hstrict⟩
  | fuel+1, i, best, bestv, hv, hlt, hle, hstrict => by
      unfold pyMinRangeAux
      by_cases hc : f i < bestv
      · rw [if_pos hc]
        have h1 : f i = f i := rfl
        have h2 : i < i + 1 := Nat.lt_succ_self i
        have h3 : ∀ j, j < i + 1 → f i ≤ f j := by
          intro j hj
          rcases Nat.lt_succ_iff_lt_or_eq.mp hj with hj' | hj'
          · exact le_of_lt (lt_of_lt_of_le (hv ▸ hc) (hle j hj'))
          · rw [hj']
        have h4 : ∀ j, j < i → f i < f j := by
          intro j hj
          exact lt_of_lt_of_le (hv ▸ hc) (hle j hj)
        have ih := pyMinRangeAux_spec f fuel (i+1) i (f i) h1 h2 h3 h4
        constructor
        · have := ih.1
          omega
        · constructor
          · intro j hj
            exact ih.2.1 j (by omega)
          · exact ih.2.2
      · rw [if_neg hc]
        have hge : f best ≤ f i := by
          rw [← hv]
          exact le_of_not_lt hc
        have h3 : ∀ j, j < i + 1 → f best ≤ f j := by
          intro j hj
          rcases Nat.lt_succ_iff_lt_or_eq.mp hj with hj' | hj'
          · exact hle j hj'
          · rw [hj']; exact hge
        have ih := pyMinRangeAux_spec f fuel (i+1) best bestv hv (Nat.lt_succ_of_lt hlt)
          h3 hstrict
        constructor
        · have := ih.1
          omega
        · constructor
          · intro j hj
            exact ih.2.1 j (by omega)
          · exact ih.2.2

/-- `min(range(n), key=f)` returns the first index achieving the
minimum of `f` on `range n`. -/
theorem pyMinRange_spec (f : Nat → ℚ) (n : Nat) (hn : 0 < n) :
    ∃ r, pyMinRange f n = .ok r ∧ r < n
      ∧ (∀ j, j < n → f r ≤ f j)
      ∧ (∀ j, j < r → f r < f j) := by
  match n, hn with
  | k+1, _ =>
      have h := pyMinRangeAux_spec f k 1 0 (f 0) rfl Nat.one_pos
        (by intro j hj; interval_cases j; exact le_refl _)
        (by intro j hj; omega)
      exact ⟨pyMinRangeAux f k 1 0 (f 0), rfl, by have := h.1; omega,
        by intro j hj; exact h.2.1 j (by omega), h.2.2⟩

end Eng

/-- C7 counterexample: the single hazard site lies at exactly the
maximum allowable distance (5 km); the minimum does not exceed the
maximum, yet the code's strict `<` assertion rejects the asset. -/
theorem c7_counterexample :
    Expo.geodesicResolve [⟨0, 0, 42⟩] (fun _ _ => 5) 0 0 (some 5)
      = Except.error Eng.PyErr.assertionError
    ∧ ¬ ((5 : ℚ) > 5) :=
  ⟨by decide, by decide⟩

/-- C7 (amended): geodesic resolution computes the distance to every
hazard site and picks the first index achieving the minimum (first
minimum wins on exact ties); it succeeds with the site id at that index
when the minimum is strictly below the maximum allowable distance and
fails with the assertion (the spec's MatchError) when the minimum is
greater than or equal to it — an asset whose nearest site lies at
exactly the maximum allowable distance is rejected, not matched. -/
theorem c7_geodesic_first_min_strict_bound :
    ∀ (sitecol : List Expo.SiteCol) (distFn : ℚ × ℚ → ℚ × ℚ → ℚ)
      (alat alon d : ℚ), 0 < sitecol.length →
      ∃ minIdx,
        Eng.pyMinRange
            (fun i => (Expo.geoDistances sitecol distFn alat alon).getD i 0)
            (Expo.geoDistances sitecol distFn alat alon).length = .ok minIdx
        ∧ minIdx < sitecol.length
        ∧ (∀ j, j < sitecol.length →
            (Expo.geoDistances sitecol distFn alat alon).getD minIdx 0
              ≤ (Expo.geoDistances sitecol distFn alat alon).getD j 0)
        ∧ (∀ j, j < minIdx →
            (Expo.geoDistances sitecol distFn alat alon).getD minIdx 0
              < (Expo.geoDistances sitecol distFn alat alon).getD j 0)
        ∧ ((Expo.geoDistances sitecol distFn alat alon).getD minIdx 0 < d →
            Expo.geodesicResolve sitecol distFn alat alon (some d)
              = Except.ok ((sitecol.map Expo.SiteCol.sid).getD minIdx 0))
        ∧ (d ≤ (Expo.geoDistances sitecol distFn alat alon).getD minIdx 0 →
            Expo.geodesicResolve sitecol distFn alat alon (some d)
              = Except.error Eng.PyErr.assertionError) := by
  intro sitecol distFn alat alon d hlen
  have hlen' : 0 < (Expo.geoDistances sitecol distFn alat alon).length := by
    simpa [Expo.geoDistances] using hlen
  obtain ⟨r, hok, hrlt, hle, hstrict⟩ := Eng.pyMinRange_spec
    (fun i => (Expo.geoDistances sitecol distFn alat alon).getD i 0)
    (Expo.geoDistances sitecol distFn alat alon).length hlen'
  refine ⟨r, hok, by simpa [Expo.geoDistances] using hrlt, ?_, hstrict, ?_, ?_⟩
  · intro j hj
    exact hle j (by simpa [Expo.geoDistances] using hj)
  · intro hd
    simp only [Expo.geodesicResolve]
    rw [hok, Eng.except_bind_ok]
    simp only [if_pos hd]
  · intro hd
    simp only [Expo.geodesicResolve]
    rw [hok, Eng.except_bind_ok]
    simp only [if_neg (not_lt.mpr hd)]

/-- Witness for C7 on two sites with distances 0 and 1 and maximum
allowable distance 1. -/
theorem c7_witness :
    ∃ minIdx,
      Eng.pyMinRange
          (fun i => (Expo.geoDistances [⟨0, 0, 42⟩, ⟨1, 1, 43⟩]
            (fun p _ => p.1) 9 9).getD i 0)
          (Expo.geoDistances [⟨0, 0, 42⟩, ⟨1, 1, 43⟩] (fun p _ => p.1) 9 9).length
        = .ok minIdx
      ∧ minIdx < ([⟨0, 0, 42⟩, ⟨1, 1, 43⟩] : List Expo.SiteCol).length
      ∧ (∀ j, j < ([⟨0, 0, 42⟩, ⟨1, 1, 43⟩] : List Expo.SiteCol).length →
          (Expo.geoDistances [⟨0, 0, 42⟩, ⟨1, 1, 43⟩] (fun p _ => p.1) 9 9).getD minIdx 0
            ≤ (Expo.geoDistances [⟨0, 0, 42⟩, ⟨1, 1, 43⟩] (fun p _ => p.1) 9 9).getD j 0)
      ∧ (∀ j, j < minIdx →
          (Expo.geoDistances [⟨0, 0, 42⟩, ⟨1, 1, 43⟩] (fun p _ => p.1) 9 9).getD minIdx 0
            < (Expo.geoDistances [⟨0, 0, 42⟩, ⟨1, 1, 43⟩] (fun p _ => p.1) 9 9).getD j 0)
      ∧ ((Expo.geoDistances [⟨0, 0, 42⟩, ⟨1, 1, 43⟩] (fun p _ => p.1) 9 9).getD minIdx 0 < 1 →
          Expo.geodesicResolve [⟨0, 0, 42⟩, ⟨1, 1, 43⟩] (fun p _ => p.1) 9 9 (some 1)
            = Except.ok (([⟨0, 0, 42⟩, ⟨1, 1, 43⟩] : List Expo.SiteCol).map
                Expo.SiteCol.sid |>.getD minIdx 0))
      ∧ (1 ≤ (Expo.geoDistances [⟨0, 0, 42⟩, ⟨1, 1, 43⟩] (fun p _ => p.1) 9 9).getD minIdx 0 →
          Expo.geodesicResolve [⟨0, 0, 42⟩, ⟨1, 1, 43⟩] (fun p _ => p.1) 9 9 (some 1)
            = Except.error Eng.PyErr.assertionError) :=
  c7_geodesic_first_min_strict_bound [⟨0, 0, 42⟩, ⟨1, 1, 43⟩] (fun p _ => p.1) 9 9 1
    (by decide)

namespace Expo

theorem expoTaxStep_names (tax : String) (c : Bool) (sm : List SiteRow)
    (sc : List SiteCol) (dF : ℚ × ℚ → ℚ × ℚ → ℚ) (md : Option ℚ) :
    ∀ (heap heap' block : List (String × ExpAsset)),
      expoTaxStep tax c sm sc dF md heap = .ok (heap', block) →
      heap'.map Prod.fst = heap.map Prod.fst
  | [], heap', block, h => by
      simp only [expoTaxStep, Except.ok.injEq, Prod.mk.injEq] at h
      rw [← h.1]
  | (n0, a0) :: rest, heap', block, h => by
      simp only [expoTaxStep] at h
      by_cases ht : a0.taxonomy = tax
      · rw [if_pos ht] at h
        obtain ⟨hs, hp, h2⟩ := except_bind_ok_inv h
        obtain ⟨r, hr, h3⟩ := except_bind_ok_inv h2
        simp only [Except.ok.injEq, Prod.mk.injEq] at h3
        have ih := expoTaxStep_names tax c sm sc dF md rest r.1 r.2 (by rw [hr])
        rw [← h3.1]
        simpa using ih
      · rw [if_neg ht] at h
        obtain ⟨r, hr, h3⟩ := except_bind_ok_inv h
        simp only [Except.ok.injEq, Prod.mk.injEq] at h3
        have ih := expoTaxStep_names tax c sm sc dF md rest r.1 r.2 (by rw [hr])
        rw [← h3.1]
        simpa using ih

theorem expoTaxStep_block_names (tax : String) (c : Bool) (sm : List SiteRow)
    (sc : List SiteCol) (dF : ℚ × ℚ → ℚ × ℚ → ℚ) (md : Option ℚ) :
    ∀ (heap heap' block : List (String × ExpAsset)),
      expoTaxStep tax c sm sc dF md heap = .ok (heap', block) →
      ∀ p, p ∈ block → p.1 ∈ heap.map Prod.fst
  | [], heap', block, h => by
      simp only [expoTaxStep, Except.ok.injEq, Prod.mk.injEq] at h
      intro p hp
      rw [← h.2] at hp
      simp at hp
  | (n0, a0) :: rest, heap', block, h => by
      simp only [expoTaxStep] at h
      by_cases ht : a0.taxonomy = tax
      · rw [if_pos ht] at h
        obtain ⟨hs, hp0, h2⟩ := except_bind_ok_inv h
        obtain ⟨r, hr, h3⟩ := except_bind_ok_inv h2
        simp only [Except.ok.injEq, Prod.mk.injEq] at h3
        intro p hp
        rw [← h3.2] at hp
        rcases List.mem_cons.mp hp with hp | hp
        · rw [hp]
          simp
        · have := expoTaxStep_block_names tax c sm sc dF md rest r.1 r.2 (by rw [hr]) p hp
          simp only [List.map_cons, List.mem_cons]
          exact Or.inr this
      · rw [if_neg ht] at h
        obtain ⟨r, hr, h3⟩ := except_bind_ok_inv h
        simp only [Except.ok.injEq, Prod.mk.injEq] at h3
        intro p hp
        rw [← h3.2] at hp
        have := expoTaxStep_block_names tax c sm sc dF md rest r.1 r.2 (by rw [hr]) p hp
        simp only [List.map_cons, List.mem_cons]
        exact Or.inr this

theorem hasKey_annotate (a : ExpAsset) (hs : ℚ) :
    Eng.hasKey (annotate a hs).location "hazard_sid" = true := by
  simp [annotate, Eng.hasKey, Eng.dlookup_dupdate_self]

theorem expoTaxStep_block_lookup (tax : String) (c : Bool) (sm : List SiteRow)
    (sc : List SiteCol) (dF : ℚ × ℚ → ℚ × ℚ → ℚ) (md : Option ℚ) :
    ∀ (heap heap' block : List (String × ExpAsset)),
      expoTaxStep tax c sm sc dF md heap = .ok (heap', block) →
      (heap.map Prod.fst).Nodup →
      ∀ name a', (name, a') ∈ block →
        Eng.dlookup heap' name = some a' ∧ a'.taxonomy = tax
        ∧ Eng.hasKey a'.location "hazard_sid" = true
  | [], heap', block, h, hnd => by
      simp only [expoTaxStep, Except.ok.injEq, Prod.mk.injEq] at h
      intro name a' hp
      rw [← h.2] at hp
      simp at hp
  | (n0, a0) :: rest, heap', block, h, hnd => by
      simp only [expoTaxStep] at h
      have hnd' : (rest.map Prod.fst).Nodup := (List.nodup_cons.mp (by simpa using hnd)).2
      have hn0 : n0 ∉ rest.map Prod.fst := (List.nodup_cons.mp (by simpa using hnd)).1
      by_cases ht : a0.taxonomy = tax
      · rw [if_pos ht] at h
        obtain ⟨hs, hp0, h2⟩ := except_bind_ok_inv h
        obtain ⟨r, hr, h3⟩ := except_bind_ok_inv h2
        simp only [Except.ok.injEq, Prod.mk.injEq] at h3
        intro name a' hp
        rw [← h3.2] at hp
        rcases List.mem_cons.mp hp with hp | hp
        · simp only [Prod.mk.injEq] at hp
          obtain ⟨hpn, hpa⟩ := hp
          subst hpn
          subst hpa
          refine ⟨?_, by simpa [annotate] using ht, hasKey_annotate a0 hs⟩
          rw [← h3.1]
          simp [Eng.dlookup]
        · have ih := expoTaxStep_block_lookup tax c sm sc dF md rest r.1 r.2
            (by rw [hr]) hnd' name a' hp
          have hname : name ∈ rest.map Prod.fst := by
            have := expoTaxStep_block_names tax c sm sc dF md rest r.1 r.2
              (by rw [hr]) (name, a') hp
            simpa using this
          have hne : n0 ≠ name := fun he => hn0 (he ▸ hname)
          refine ⟨?_, ih.2.1, ih.2.2⟩
          rw [← h3.1]
          simp only [Eng.dlookup, if_neg hne]
          exact ih.1
      · rw [if_neg ht] at h
        obtain ⟨r, hr, h3⟩ := except_bind_ok_inv h
        simp only [Except.ok.injEq, Prod.mk.injEq] at h3
        intro name a' hp
        rw [← h3.2] at hp
        have ih := expoTaxStep_block_lookup tax c sm sc dF md rest r.1 r.2
          (by rw [hr]) hnd' name a' hp
        have hname : name ∈ rest.map Prod.fst := by
          have := expoTaxStep_block_names tax c sm sc dF md rest r.1 r.2
            (by rw [hr]) (name, a') hp
          simpa using this
        have hne : n0 ≠ name := fun he => hn0 (he ▸ hname)
        refine ⟨?_, ih.2.1, ih.2.2⟩
        rw [← h3.1]
        simp only [Eng.dlookup, if_neg hne]
        exact ih.1

theorem expoTaxStep_preserves (tax : String) (c : Bool) (sm : List SiteRow)
    (sc : List SiteCol) (dF : ℚ × ℚ → ℚ × ℚ → ℚ) (md : Option ℚ) :
    ∀ (heap heap' block : List (String × ExpAsset)),
      expoTaxStep tax c sm sc dF md heap = .ok (heap', block) →
      ∀ name a, Eng.dlookup heap name = some a → a.taxonomy ≠ tax →
        Eng.dlookup heap' name = some a
  | [], heap', block, h => by
      simp only [expoTaxStep, Except.ok.injEq, Prod.mk.injEq] at h
      intro name a ha
      simp [Eng.dlookup] at ha
  | (n0, a0) :: rest, heap', block, h => by
      simp only [expoTaxStep] at h
      by_cases ht : a0.taxonomy = tax
      · rw [if_pos ht] at h
        obtain ⟨hs, hp0, h2⟩ := except_bind_ok_inv h
        obtain ⟨r, hr, h3⟩ := except_bind_ok_inv h2
        simp only [Except.ok.injEq, Prod.mk.injEq] at h3
        intro name a ha hat
        by_cases hne : n0 = name
        · simp only [Eng.dlookup, if_pos hne] at ha
          have haa : a0 = a := by simpa using ha
          exact absurd (haa ▸ ht) hat
        · simp only [Eng.dlookup, if_neg hne] at ha
          rw [← h3.1]
          simp only [Eng.dlookup, if_neg hne]
          exact expoTaxStep_preserves tax c sm sc dF md rest r.1 r.2 (by rw [hr])
            name a ha hat
      · rw [if_neg ht] at h
        obtain ⟨r, hr, h3⟩ := except_bind_ok_inv h
        simp only [Except.ok.injEq, Prod.mk.injEq] at h3
        intro name a ha hat
        by_cases hne : n0 = name
        · simp only [Eng.dlookup, if_pos hne] at ha
          rw [← h3.1]
          simp only [Eng.dlookup, if_pos hne]
          exact ha
        · simp only [Eng.dlookup, if_neg hne] at ha
          rw [← h3.1]
          simp only [Eng.dlookup, if_neg hne]
          exact expoTaxStep_preserves tax c sm sc dF md rest r.1 r.2 (by rw [hr])
            name a ha hat

end Expo

namespace Expo

theorem expoTaxLoop_spec (c : Bool) (sm : List SiteRow) (sc : List SiteCol)
    (dF : ℚ × ℚ → ℚ × ℚ → ℚ) (md : Option ℚ) :
    ∀ (taxes : List String) (heap : List (String × ExpAsset))
      (acc : List (String × List (String × ExpAsset)))
      (final : List (String × ExpAsset))
      (abt : List (String × List (String × ExpAsset))),
      expoTaxLoop c sm sc dF md taxes heap acc = .ok (final, abt) →
      (heap.map Prod.fst).Nodup →
      taxes.Nodup →
      (∀ tax block, (tax, block) ∈ acc → tax ∉ taxes ∧
        ∀ name a', (name, a') ∈ block →
          Eng.dlookup heap name = some a' ∧ a'.taxonomy = tax
          ∧ Eng.hasKey a'.location "hazard_sid" = true) →
      ∀ tax block, (tax, block) ∈ abt → ∀ name a', (name, a') ∈ block →
        Eng.dlookup final name = some a'
        ∧ Eng.hasKey a'.location "hazard_sid" = true
  | [], heap, acc, final, abt, h, hnd, htnd, hinv => by
      simp only [expoTaxLoop, Except.ok.injEq, Prod.mk.injEq] at h
      intro tax block hb name a' hp
      rw [← h.2] at hb
      have := (hinv tax block hb).2 name a' hp
      rw [← h.1]
      exact ⟨this.1, this.2.2⟩
  | tax0 :: rest, heap, acc, final, abt, h, hnd, htnd, hinv => by
      simp only [expoTaxLoop] at h
      obtain ⟨r, hr, h2⟩ := except_bind_ok_inv h
      have hnames := expoTaxStep_names tax0 c sm sc dF md heap r.1 r.2
        (by rw [hr])
      have hnd' : (r.1.map Prod.fst).Nodup := by rw [hnames]; exact hnd
      have hrest : rest.Nodup := (List.nodup_cons.mp htnd).2
      have htax0 : tax0 ∉ rest := (List.nodup_cons.mp htnd).1
      refine expoTaxLoop_spec c sm sc dF md rest r.1
        (acc ++ [(tax0, r.2)]) final abt h2 hnd' hrest ?_
      intro tax block hb
      rcases List.mem_append.mp hb with hb | hb
      · have old := hinv tax block hb
        have hnotin : tax ∉ rest := fun hm => old.1 (List.mem_cons_of_mem _ hm)
        refine ⟨hnotin, ?_⟩
        intro name a' hp
        have o := old.2 name a' hp
        have hne : a'.taxonomy ≠ tax0 := by
          rw [o.2.1]
          intro he
          exact old.1 (he ▸ List.mem_cons_self tax0 rest)
        exact ⟨expoTaxStep_preserves tax0 c sm sc dF md heap r.1 r.2 (by rw [hr])
            name a' o.1 hne, o.2.1, o.2.2⟩
      · simp only [List.mem_singleton, Prod.mk.injEq] at hb
        obtain ⟨hb1, hb2⟩ := hb
        refine ⟨by rw [hb1]; exact htax0, ?_⟩
        intro name a' hp
        have hres := expoTaxStep_block_lookup tax0 c sm sc dF md heap r.1 r.2
          (by rw [hr]) hnd name a' (hb2 ▸ hp)
        exact ⟨hres.1, by rw [hb1]; exact hres.2.1, hres.2.2⟩

end Expo

def c9asset : Expo.ExpAsset :=
  ⟨"T", "point", [("sid", Eng.FieldVal.list [Eng.Scalar.num 3])]⟩

def c9assets : List (String × Expo.ExpAsset) := [("a", c9asset)]

def c9after : Expo.ExpAsset :=
  ⟨"T", "point", [("sid", Eng.FieldVal.list [Eng.Scalar.num 3]),
   ("hazard_sid", Eng.FieldVal.scalar (Eng.Scalar.num 3))]⟩

/-- C9 counterexample: resolving a single point asset annotates the
caller's asset structure in place — after `exposure_by_taxonomy` returns,
the caller's `exp_assets` holds the annotated asset (with `hazard_sid`
added to its location), not the structure the caller passed in. -/
theorem c9_counterexample :
    Expo.exposure_by_taxonomy c9assets ["T"] true [] [] none (fun _ _ => 0)
      = Except.ok ([("T", [("a", c9after)])], [("a", c9after)])
    ∧ ([("a", c9after)] : List (String × Expo.ExpAsset)) ≠ c9assets :=
  ⟨by decide, by decide⟩

/-- C9 (amended): `exposure_by_taxonomy` annotates the caller-owned
asset objects in place rather than copying: after a successful run, for
every asset returned in `assets_by_taxonomy`, the caller's `exp_assets`
mapping holds exactly that annotated object (sharing, not a copy), and
its location carries the `hazard_sid` key. -/
theorem c9_annotates_caller_assets_in_place :
    ∀ (exp_assets : List (String × Expo.ExpAsset)) (taxKeys : List String)
      (consistency : Bool) (sitecol : List Expo.SiteCol)
      (site_mtdata : List Expo.SiteRow) (maxd : Option ℚ)
      (distFn : ℚ × ℚ → ℚ × ℚ → ℚ)
      (abt : List (String × List (String × Expo.ExpAsset)))
      (after : List (String × Expo.ExpAsset)),
      (exp_assets.map Prod.fst).Nodup →
      taxKeys.Nodup →
      Expo.exposure_by_taxonomy exp_assets taxKeys consistency sitecol site_mtdata
          maxd distFn = Except.ok (abt, after) →
      ∀ tax block, (tax, block) ∈ abt →
        ∀ name a', (name, a') ∈ block →
          Eng.dlookup after name = some a'
          ∧ Eng.hasKey a'.location "hazard_sid" = true := by
  intro exp_assets taxKeys consistency sitecol site_mtdata maxd distFn abt after
    hnd htnd h
  unfold Expo.exposure_by_taxonomy at h
  obtain ⟨r, hr, h2⟩ := except_bind_ok_inv h
  simp only [Except.ok.injEq, Prod.mk.injEq] at h2
  intro tax block hb name a' hp
  have := Expo.expoTaxLoop_spec consistency site_mtdata sitecol distFn maxd taxKeys
    exp_assets [] r.1 r.2 (by rw [hr]) hnd htnd (by intro tax block hb; simp at hb)
    tax block (by rw [h2.1]; exact hb) name a' hp
  rw [← h2.2]
  exact this

/-- Witness for C9 on the concrete single-asset fixture. -/
theorem c9_witness :
    Eng.dlookup [("a", c9after)] "a" = some c9after
    ∧ Eng.hasKey c9after.location "hazard_sid" = true :=
  c9_annotates_caller_assets_in_place c9assets ["T"] true [] [] none (fun _ _ => 0)
    [("T", [("a", c9after)])] [("a", c9after)] (by decide) (by decide) (by decide)
    "T" [("a", c9after)] (by decide) "a" c9after (by decide)

namespace Filt

theorem insertSorted_perm (a : Nat) :
    ∀ (l : List Nat), List.Perm (insertSorted a l) (a :: l)
  | [] => List.Perm.refl _
  | b :: t => by
      unfold insertSorted
      by_cases h : a ≤ b
      · rw [if_pos h]
      · rw [if_neg h]
        exact List.Perm.trans (List.Perm.cons b (insertSorted_perm a t))
          (List.Perm.swap a b t)

theorem sortNat_perm : ∀ (l : List Nat), List.Perm (sortNat l) l
  | [] => List.Perm.refl _
  | a :: t => by
      show List.Perm (insertSorted a (sortNat t)) (a :: t)
      exact List.Perm.trans (insertSorted_perm a (sortNat t))
        (List.Perm.cons a (sortNat_perm t))

theorem mem_sortNat (x : Nat) (l : List Nat) : x ∈ sortNat l ↔ x ∈ l :=
  (sortNat_perm l).mem_iff

theorem pyIndex_ok_getElem :
    ∀ (l : List Nat) (x i : Nat), pyIndex l x = .ok i → l[i]? = some x
  | [], x, i, h => by simp [pyIndex] at h
  | a :: t, x, i, h => by
      unfold pyIndex at h
      by_cases ha : a = x
      · rw [if_pos ha] at h
        simp only [Except.ok.injEq] at h
        rw [← h, ha]
        simp
      · rw [if_neg ha] at h
        cases hr : pyIndex t x with
        | error e => rw [hr] at h; exact absurd h (by simp [Except.map])
        | ok j =>
            rw [hr] at h
            simp only [Except.map, Except.ok.injEq] at h
            rw [← h]
            simpa using pyIndex_ok_getElem t x j hr

theorem pyIndex_ok_of_mem :
    ∀ (l : List Nat) (x : Nat), x ∈ l → ∃ i, pyIndex l x = .ok i
  | [], x, h => absurd h (by simp)
  | a :: t, x, h => by
      unfold pyIndex
      by_cases ha : a = x
      · rw [if_pos ha]; exact ⟨0, rfl⟩
      · rw [if_neg ha]
        have hx : x ∈ t := by
          rcases List.mem_cons.mp h with h' | h'
          · exact absurd h'.symm ha
          · exact h'
        obtain ⟨i, hi⟩ := pyIndex_ok_of_mem t x hx
        exact ⟨i + 1, by rw [hi]; rfl⟩

theorem rowsAt_ok_mem {α : Type _} (table : List α) :
    ∀ (idxs : List Nat) (out : List α), rowsAt table idxs = .ok out →
      ∀ r, r ∈ out ↔ ∃ i ∈ idxs, table[i]? = some r
  | [], out, h, r => by
      simp only [rowsAt, Except.ok.injEq] at h
      rw [← h]
      simp
  | i :: t, out, h, r => by
      unfold rowsAt at h
      cases hi : table[i]? with
      | none => rw [hi] at h; exact absurd h (by simp)
      | some v =>
          rw [hi] at h
          cases hrest : rowsAt table t with
          | error e => rw [hrest] at h; exact absurd h (by simp [Except.map])
          | ok l =>
              rw [hrest] at h
              simp only [Except.map, Except.ok.injEq] at h
              rw [← h]
              constructor
              · intro hm
                rcases List.mem_cons.mp hm with hm | hm
                · exact ⟨i, List.mem_cons_self i t, by rw [hi, hm]⟩
                · obtain ⟨j, hj, hjv⟩ := (rowsAt_ok_mem table t l hrest r).mp hm
                  exact ⟨j, List.mem_cons_of_mem i hj, hjv⟩
              · rintro ⟨j, hj, hjv⟩
                rcases List.mem_cons.mp hj with hj | hj
                · rw [hj] at hjv
                  rw [hi] at hjv
                  simp only [Option.some.injEq] at hjv
                  rw [hjv]
                  exact List.mem_cons_self r l
                · exact List.mem_cons_of_mem v
                    ((rowsAt_ok_mem table t l hrest r).mpr ⟨j, hj, hjv⟩)

theorem mapExcept_ok_mem_out {α β : Type _} (f : α → Except Eng.PyErr β) :
    ∀ (l : List α) (out : List β), mapExcept f l = .ok out →
      ∀ b ∈ out, ∃ a ∈ l, f a = .ok b
  | [], out, h, b, hb => by
      simp only [mapExcept, Except.ok.injEq] at h
      rw [← h] at hb
      simp at hb
  | a :: t, out, h, b, hb => by
      unfold mapExcept at h
      cases ha : f a with
      | error e => rw [ha] at h; exact absurd h (by simp)
      | ok v =>
          rw [ha] at h
          cases hrest : mapExcept f t with
          | error e => rw [hrest] at h; exact absurd h (by simp [Except.map])
          | ok l' =>
              rw [hrest] at h
              simp only [Except.map, Except.ok.injEq] at h
              rw [← h] at hb
              rcases List.mem_cons.mp hb with hb | hb
              · exact ⟨a, List.mem_cons_self a t, by rw [ha, hb]⟩
              · obtain ⟨a', ha', hav⟩ := mapExcept_ok_mem_out f t l' hrest b hb
                exact ⟨a', List.mem_cons_of_mem a ha', hav⟩

theorem mapExcept_ok_mem_in {α β : Type _} (f : α → Except Eng.PyErr β) :
    ∀ (l : List α) (out : List β), mapExcept f l = .ok out →
      ∀ a ∈ l, ∃ b ∈ out, f a = .ok b
  | [], out, h, a, ha => absurd ha (by simp)
  | a0 :: t, out, h, a, ha => by
      unfold mapExcept at h
      cases ha0 : f a0 with
      | error e => rw [ha0] at h; exact absurd h (by simp)
      | ok v =>
          rw [ha0] at h
          cases hrest : mapExcept f t with
          | error e => rw [hrest] at h; exact absurd h (by simp [Except.map])
          | ok l' =>
              rw [hrest] at h
              simp only [Except.map, Except.ok.injEq] at h
              rcases List.mem_cons.mp ha with ha | ha
              · refine ⟨v, ?_, by rw [ha, ha0]⟩
                rw [← h]
                exact List.mem_cons_self v l'
              · obtain ⟨b, hb, hab⟩ := mapExcept_ok_mem_in f t l' hrest a ha
                refine ⟨b, ?_, hab⟩
                rw [← h]
                exact List.mem_cons_of_mem v hb

end Filt

namespace Filt

/-- Magnitude/distance bounds in the specification's reading: a value is
within the bounds when each supplied bound holds (an absent bound is no
constraint). -/
def withinOpt (lo hi : Option ℚ) (x : ℚ) : Bool :=
  lo.all (fun q => decide (q ≤ x)) && hi.all (fun q => decide (x ≤ q))

/-- The claim's qualifying set, following the specification's words: an
event qualifies when it survives stage 1 and its rupture's magnitude
lies within the magnitude bounds and its rupture's hypocenter lies
within the distance bounds of the reference coordinate. -/
def specQualifies (events : List EventRow) (ruptures : List RupRow) (eoi : List Nat)
    (min_mag max_mag min_dist max_dist : Option ℚ) (ref_coords : Option (ℚ × ℚ))
    (distFn : ℚ × ℚ → ℚ × ℚ → ℚ) (e : Nat) : Prop :=
  e ∈ eoi ∧ ∃ erow ∈ events, erow.id = e ∧ ∃ rrow ∈ ruptures,
    rrow.id = erow.rup_id
    ∧ withinOpt min_mag max_mag rrow.mag = true
    ∧ withinOpt min_dist max_dist
        (distFn (rrow.hypo.getD 0 0, rrow.hypo.getD 1 0) (ref_coords.getD (0, 0)))
      = true

end Filt

def c2gmf : List Eng.GmfRow := [⟨10, 1, [1]⟩, ⟨11, 1, [1]⟩]

def c2events : List Filt.EventRow := [⟨10, 7⟩, ⟨11, 7⟩]

def c2rups : List Filt.RupRow := [⟨7, 5, [0, 0]⟩]

instance specQualifiesDec (events : List Filt.EventRow) (ruptures : List Filt.RupRow)
    (eoi : List Nat) (mn mx mnd mxd : Option ℚ) (rc : Option (ℚ × ℚ))
    (dF : ℚ × ℚ → ℚ × ℚ → ℚ) (e : Nat) :
    Decidable (Filt.specQualifies events ruptures eoi mn mx mnd mxd rc dF e) := by
  unfold Filt.specQualifies
  exact inferInstance

/-- C2 counterexample: events 10 and 11 both survive stage 1 and share
rupture 7, whose magnitude passes the bound; the pipeline maps each
surviving rupture occurrence back through `.index`, returning `[10, 10]`
— event 11 qualifies under the claim's set but is dropped (and 10 is
duplicated). -/
theorem c2_counterexample :
    Filt.filter_events c3cons "PGA" c2gmf c3exp c2events c2rups
        (some 4) none (some 1) none none none (fun _ _ => 0)
      = Except.ok [10, 10]
    ∧ Filt.filter_events_by_imvalue c3cons "PGA" c2gmf c3exp 2 (some 1)
      = Except.ok [10, 11]
    ∧ Filt.specQualifies c2events c2rups [10, 11] (some 4) none none none none
        (fun _ _ => 0) 11
    ∧ (11 : Nat) ∉ [10, 10] :=
  ⟨by decide, by decide, by decide, by decide⟩

namespace Filt

theorem magMask_iff (mn mx : Option ℚ) (m : ℚ) (hmn : mn ≠ some 0)
    (hmx : mx ≠ some 0) : magMask mn mx m = withinOpt mn mx m := by
  cases mn with
  | none =>
      cases mx with
      | none => simp [magMask, withinOpt, truthyQ, Option.all]
      | some qx =>
          have hx : qx ≠ 0 := fun h => hmx (by rw [h])
          simp [magMask, withinOpt, truthyQ, Option.all, hx]
  | some qn =>
      have hn : qn ≠ 0 := fun h => hmn (by rw [h])
      cases mx with
      | none => simp [magMask, withinOpt, truthyQ, Option.all, hn]
      | some qx =>
          have hx : qx ≠ 0 := fun h => hmx (by rw [h])
          simp [magMask, withinOpt, truthyQ, Option.all, hn, hx]

theorem distStage_mem (frupByMag : List RupRow) (mnd mxd : Option ℚ)
    (rc : Option (ℚ × ℚ)) (dF : ℚ × ℚ → ℚ × ℚ → ℚ) (rids : List Nat)
    (hmnd : mnd ≠ some 0) (hmxd : mxd ≠ some 0)
    (h : distStage frupByMag mnd mxd rc dF = .ok rids) :
    ∀ x, x ∈ rids ↔ ∃ rrow ∈ frupByMag,
      withinOpt mnd mxd (dF (rrow.hypo.getD 0 0, rrow.hypo.getD 1 0) (rc.getD (0, 0)))
        = true ∧ rrow.id = x := by
  unfold distStage at h
  cases mnd with
  | none =>
      cases mxd with
      | none =>
          simp only [truthyQ, Bool.or_self, Bool.false_eq_true, if_false,
            Except.ok.injEq] at h
          intro x
          rw [← h]
          simp [withinOpt, Option.all, List.mem_map]
      | some qx =>
          have hx : qx ≠ 0 := fun hq => hmxd (by rw [hq])
          cases rc with
          | none => simp [truthyQ, hx] at h
          | some c =>
              simp only [truthyQ, hx, decide_not, Bool.false_or, Bool.false_and,
                Bool.false_eq_true, if_false, decide_eq_true_eq, ne_eq,
                not_false_eq_true, decide_True, Bool.not_false, if_true,
                Except.ok.injEq] at h
              intro x
              rw [← h]
              simp [withinOpt, Option.all, List.mem_map, List.mem_filter, and_assoc]
  | some qn =>
      have hn : qn ≠ 0 := fun hq => hmnd (by rw [hq])
      cases rc with
      | none => simp [truthyQ, hn] at h
      | some c =>
          cases mxd with
          | none =>
              simp only [truthyQ, hn, ne_eq, not_false_eq_true, decide_True,
                Bool.true_or, if_true, Bool.false_eq_true, decide_False,
                Bool.and_false, Bool.true_and, if_false, Except.ok.injEq] at h
              intro x
              rw [← h]
              simp [withinOpt, Option.all, List.mem_map, List.mem_filter, and_assoc]
          | some qx =>
              have hx : qx ≠ 0 := fun hq => hmxd (by rw [hq])
              simp only [truthyQ, hn, hx, ne_eq, not_false_eq_true, decide_True,
                Bool.true_or, Bool.true_and, if_true, Except.ok.injEq] at h
              intro x
              rw [← h]
              simp [withinOpt, Option.all, List.mem_map, List.mem_filter, and_assoc]

end Filt

namespace Filt

theorem memOfGetElem {α : Type _} {l : List α} {n : Nat} {a : α}
    (h : l[n]? = some a) : a ∈ l := by
  obtain ⟨hlt, he⟩ := List.getElem?_eq_some.mp h
  exact he ▸ List.getElem_mem hlt

/-- Membership characterization of the numpy selection pattern
`table[sorted([list(table_keys).index(k) for k in keys])]` used by
`fiter_imfield_data`: when the table's keys are distinct, the selected
rows are exactly the table rows whose key occurs in `keys`. -/
theorem select_mem {α : Type _} (table : List α) (keyOf : α → Nat) (keys : List Nat)
    (idx : List Nat) (out : List α)
    (hmap : mapExcept (fun k => pyIndex (table.map keyOf) k) keys = .ok idx)
    (hrows : rowsAt table (sortNat idx) = .ok out)
    (hnd : (table.map keyOf).Nodup) :
    ∀ r, r ∈ out ↔ r ∈ table ∧ keyOf r ∈ keys := by
  intro r
  constructor
  · intro hr
    obtain ⟨i, hi, hti⟩ := (rowsAt_ok_mem table (sortNat idx) out hrows r).mp hr
    rw [mem_sortNat] at hi
    obtain ⟨k, hk, hpk⟩ := mapExcept_ok_mem_out _ keys idx hmap i hi
    have hmk : (table.map keyOf)[i]? = some k := pyIndex_ok_getElem _ k i hpk
    rw [List.getElem?_map, hti] at hmk
    simp only [Option.map_some', Option.some.injEq] at hmk
    exact ⟨memOfGetElem hti, hmk ▸ hk⟩
  · rintro ⟨hrt, hrk⟩
    obtain ⟨i, hi, hpk⟩ := mapExcept_ok_mem_in _ keys idx hmap (keyOf r) hrk
    have hmk : (table.map keyOf)[i]? = some (keyOf r) := pyIndex_ok_getElem _ _ i hpk
    have hti : ∃ r', table[i]? = some r' ∧ keyOf r' = keyOf r := by
      rw [List.getElem?_map] at hmk
      cases ht : table[i]? with
      | none => rw [ht] at hmk; simp at hmk
      | some r' =>
          rw [ht] at hmk
          simp only [Option.map_some', Option.some.injEq] at hmk
          exact ⟨r', rfl, hmk⟩
    obtain ⟨r', htr', hkr'⟩ := hti
    have hr'mem : r' ∈ table := memOfGetElem htr'
    have : r' = r := List.inj_on_of_nodup_map hnd hr'mem hrt hkr'
    rw [this] at htr'
    exact (rowsAt_ok_mem table (sortNat idx) out hrows r).mpr
      ⟨i, (mem_sortNat i idx).mpr hi, htr'⟩

theorem fiter_inv (events : List EventRow) (ruptures : List RupRow) (eoi : List Nat)
    (fev : List EventRow) (frup : List RupRow)
    (h : fiter_imfield_data events ruptures eoi = .ok (fev, frup)) :
    ∃ idx1 idx2,
      mapExcept (fun eid => pyIndex (events.map EventRow.id) eid) eoi = .ok idx1
      ∧ rowsAt events (sortNat idx1) = .ok fev
      ∧ mapExcept (fun rupid => pyIndex (ruptures.map RupRow.id) rupid)
          (fev.map EventRow.rup_id) = .ok idx2
      ∧ rowsAt ruptures (sortNat idx2) = .ok frup := by
  unfold fiter_imfield_data at h
  obtain ⟨idx1, h1, h⟩ := except_bind_ok_inv h
  obtain ⟨fev', h2, h⟩ := except_bind_ok_inv h
  obtain ⟨idx2, h3, h⟩ := except_bind_ok_inv h
  obtain ⟨frup', h4, h⟩ := except_bind_ok_inv h
  have hfe : fev' = fev ∧ frup' = frup := by
    simp only [pure, Except.pure, Except.ok.injEq, Prod.mk.injEq] at h
    exact h
  obtain ⟨he1, he2⟩ := hfe
  subst he1
  subst he2
  exact ⟨idx1, idx2, h1, h2, h3, h4⟩

theorem idLookup_ok (fev : List EventRow) (i e : Nat) :
    (match (fev.map EventRow.id)[i]? with
     | some e' => Except.ok e'
     | none => Except.error Eng.PyErr.indexError) = Except.ok e
    ↔ (fev.map EventRow.id)[i]? = some e := by
  cases h : (fev.map EventRow.id)[i]? <;> simp [h]

theorem stage23_inv (fev : List EventRow) (frup : List RupRow)
    (mn mx mnd mxd : Option ℚ) (rc : Option (ℚ × ℚ)) (dF : ℚ × ℚ → ℚ × ℚ → ℚ)
    (out : List Nat) (h : stage23 fev frup mn mx mnd mxd rc dF = .ok out) :
    ∃ rids evIdx,
      distStage (frup.filter (fun r => magMask mn mx r.mag)) mnd mxd rc dF = .ok rids
      ∧ mapExcept (fun r => pyIndex (fev.map EventRow.rup_id) r) rids = .ok evIdx
      ∧ mapExcept (fun i =>
          match (fev.map EventRow.id)[i]? with
          | some e => Except.ok e
          | none => Except.error Eng.PyErr.indexError) evIdx = .ok out := by
  unfold stage23 at h
  obtain ⟨rids, h1, h⟩ := except_bind_ok_inv h
  obtain ⟨evIdx, h2, h⟩ := except_bind_ok_inv h
  exact ⟨rids, evIdx, h1, h2, h⟩

theorem filter_events_inv (cons : List (String × Eng.TaxCons)) (imType : String)
    (rows : List Eng.GmfRow) (exp_assets : List (String × List (String × Eng.AssetRec)))
    (events : List EventRow) (ruptures : List RupRow)
    (mn mx thr mnd mxd : Option ℚ) (rc : Option (ℚ × ℚ)) (dF : ℚ × ℚ → ℚ × ℚ → ℚ)
    (out : List Nat)
    (h : filter_events cons imType rows exp_assets events ruptures mn mx thr mnd mxd
        rc dF = .ok out) :
    ∃ eoi ff,
      filter_events_by_imvalue cons imType rows exp_assets
          (if truthyQ thr = false then 1 else 2) thr = .ok eoi
      ∧ fiter_imfield_data events ruptures eoi = .ok ff
      ∧ stage23 ff.1 ff.2 mn mx mnd mxd rc dF = .ok out := by
  unfold filter_events at h
  obtain ⟨eoi, h1, h⟩ := except_bind_ok_inv h
  obtain ⟨ff, h2, h⟩ := except_bind_ok_inv h
  exact ⟨eoi, ff, h1, h2, h⟩

end Filt

/-- C2 (amended): for a successful pipeline run, every returned event id
is a stage-1 survivor whose rupture passes the magnitude and distance
bounds (stages only narrow); and when the catalog has distinct event
ids, distinct rupture ids, no zero-valued bounds (Python truthiness
treats `0.0` as absent), and the stage-1 surviving events have pairwise
distinct ruptures, the returned set is exactly the claim's qualifying
set.  Without the distinct-rupture condition the final
`list(...).index` mapping returns, for each qualifying rupture, only its
first surviving event (see the counterexample). -/
theorem c2_surviving_event_set :
    ∀ (cons : List (String × Eng.TaxCons)) (imType : String) (rows : List Eng.GmfRow)
      (exp_assets : List (String × List (String × Eng.AssetRec)))
      (events : List Filt.EventRow) (ruptures : List Filt.RupRow)
      (mn mx thr mnd mxd : Option ℚ) (rc : Option (ℚ × ℚ))
      (dF : ℚ × ℚ → ℚ × ℚ → ℚ) (out eoi : List Nat),
      Filt.filter_events cons imType rows exp_assets events ruptures mn mx thr mnd mxd
          rc dF = Except.ok out →
      Filt.filter_events_by_imvalue cons imType rows exp_assets
          (if Filt.truthyQ thr = false then 1 else 2) thr = Except.ok eoi →
      (events.map Filt.EventRow.id).Nodup →
      (ruptures.map Filt.RupRow.id).Nodup →
      ((events.filter (fun r => decide (r.id ∈ eoi))).map Filt.EventRow.rup_id).Nodup →
      mn ≠ some 0 → mx ≠ some 0 → mnd ≠ some 0 → mxd ≠ some 0 →
      ∀ e, e ∈ out ↔ Filt.specQualifies events ruptures eoi mn mx mnd mxd rc dF e := by
  intro cons imType rows exp_assets events ruptures mn mx thr mnd mxd rc dF out eoi
    h heoi H1 H2 H4 Hmn Hmx Hmnd Hmxd e
  obtain ⟨eoi', ff, hs1, hfit, hs23⟩ := Filt.filter_events_inv cons imType rows
    exp_assets events ruptures mn mx thr mnd mxd rc dF out h
  have heq : eoi' = eoi := by
    rw [hs1] at heoi
    simpa using heoi
  rw [heq] at hs1 hfit
  obtain ⟨idx1, idx2, hm1, hr1, hm2, hr2⟩ := Filt.fiter_inv events ruptures eoi
    ff.1 ff.2 (by rw [← hfit])
  obtain ⟨rids, evIdx, hdist, hev, hout⟩ := Filt.stage23_inv ff.1 ff.2 mn mx mnd mxd
    rc dF out hs23
  have fev_mem := Filt.select_mem events Filt.EventRow.id eoi idx1 ff.1 hm1 hr1 H1
  have frup_mem := Filt.select_mem ruptures Filt.RupRow.id (ff.1.map Filt.EventRow.rup_id)
    idx2 ff.2 hm2 hr2 H2
  have dist_mem := Filt.distStage_mem (ff.2.filter (fun r => Filt.magMask mn mx r.mag))
    mnd mxd rc dF rids Hmnd Hmxd hdist
  have fev_filter_mem : ∀ r, r ∈ ff.1 ↔
      r ∈ events.filter (fun r => decide (r.id ∈ eoi)) := by
    intro r
    rw [fev_mem r, List.mem_filter]
    simp
  constructor
  · intro he
    obtain ⟨i, hiIdx, hfi⟩ := Filt.mapExcept_ok_mem_out _ evIdx out hout e he
    have hfe : (ff.1.map Filt.EventRow.id)[i]? = some e := (Filt.idLookup_ok ff.1 i e).mp hfi
    obtain ⟨erow, hrowi, hrid⟩ : ∃ erow, ff.1[i]? = some erow ∧ erow.id = e := by
      rw [List.getElem?_map] at hfe
      cases ht : ff.1[i]? with
      | none => rw [ht] at hfe; simp at hfe
      | some r' =>
          rw [ht] at hfe
          simp only [Option.map_some', Option.some.injEq] at hfe
          exact ⟨r', rfl, hfe⟩
    have herow_mem : erow ∈ ff.1 := Filt.memOfGetElem hrowi
    obtain ⟨rid, hridIn, hpi⟩ := Filt.mapExcept_ok_mem_out _ rids evIdx hev i hiIdx
    have hrupAtI : (ff.1.map Filt.EventRow.rup_id)[i]? = some rid :=
      Filt.pyIndex_ok_getElem _ rid i hpi
    have herup : erow.rup_id = rid := by
      rw [List.getElem?_map, hrowi] at hrupAtI
      simpa using hrupAtI
    obtain ⟨rrow, hrrowF, hbound, hrrowId⟩ := (dist_mem rid).mp hridIn
    have hrmag := List.mem_filter.mp hrrowF
    have hrR : rrow ∈ ruptures := ((frup_mem rrow).mp hrmag.1).1
    have hfevm := (fev_mem erow).mp herow_mem
    refine ⟨by rw [← hrid]; exact hfevm.2, erow, hfevm.1, hrid, rrow, hrR, ?_, ?_, ?_⟩
    · rw [hrrowId, herup]
    · rw [← Filt.magMask_iff mn mx rrow.mag Hmn Hmx]
      exact hrmag.2
    · exact hbound
  · intro hq
    obtain ⟨heoiMem, erow, hermem, herid, rrow, hrmem, hrid', hmag, hdistb⟩ := hq
    have herfev : erow ∈ ff.1 := (fev_mem erow).mpr ⟨hermem, by rw [herid]; exact heoiMem⟩
    have hrupmem : rrow.id ∈ ff.1.map Filt.EventRow.rup_id := by
      rw [hrid']
      exact List.mem_map_of_mem Filt.EventRow.rup_id herfev
    have hrfrup : rrow ∈ ff.2 := (frup_mem rrow).mpr ⟨hrmem, hrupmem⟩
    have hrfilt : rrow ∈ ff.2.filter (fun r => Filt.magMask mn mx r.mag) :=
      List.mem_filter.mpr ⟨hrfrup, by rw [Filt.magMask_iff mn mx rrow.mag Hmn Hmx]; exact hmag⟩
    have hridin : rrow.id ∈ rids := (dist_mem rrow.id).mpr ⟨rrow, hrfilt, hdistb, rfl⟩
    obtain ⟨i, hiIdx, hpi⟩ := Filt.mapExcept_ok_mem_in _ rids evIdx hev rrow.id hridin
    have hrupAtI : (ff.1.map Filt.EventRow.rup_id)[i]? = some rrow.id :=
      Filt.pyIndex_ok_getElem _ _ i hpi
    obtain ⟨erow2, hrowi2, herup2⟩ : ∃ erow2, ff.1[i]? = some erow2
        ∧ erow2.rup_id = rrow.id := by
      rw [List.getElem?_map] at hrupAtI
      cases ht : ff.1[i]? with
      | none => rw [ht] at hrupAtI; simp at hrupAtI
      | some r' =>
          rw [ht] at hrupAtI
          simp only [Option.map_some', Option.some.injEq] at hrupAtI
          exact ⟨r', rfl, hrupAtI⟩
    have he2mem : erow2 ∈ ff.1 := Filt.memOfGetElem hrowi2
    have heq2 : erow2 = erow := by
      refine List.inj_on_of_nodup_map H4 ?_ ?_ ?_
      · exact (fev_filter_mem erow2).mp he2mem
      · exact (fev_filter_mem erow).mp herfev
      · rw [herup2, hrid']
    obtain ⟨b, hbout, hfb⟩ := Filt.mapExcept_ok_mem_in _ evIdx out hout i hiIdx
    have hfe : (ff.1.map Filt.EventRow.id)[i]? = some b := (Filt.idLookup_ok ff.1 i b).mp hfb
    rw [List.getElem?_map, hrowi2] at hfe
    simp only [Option.map_some', Option.some.injEq] at hfe
    rw [heq2, herid] at hfe
    rw [hfe]
    exact hbout

/-- Witness for C2 on a one-event catalog that passes every stage. -/
theorem c2_witness :
    (10 ∈ ([10] : List Nat)) ↔
      Filt.specQualifies c3events c3rups [10] (some 4) none none none none
        (fun _ _ => 0) 10 :=
  c2_surviving_event_set c3cons "PGA" c3gmf c3exp c3events c3rups (some 4) none
    (some 1) none none none (fun _ _ => 0) [10] [10] (by decide) (by decide)
    (by decide) (by decide) (by decide) (by decide) (by decide) (by decide)
    (by decide) 10
